import Mathlib

/-!
Verification of the Formatter-PC transformation-and-layout engine
(`newformatter.py`) against its design specification.

The engine is embedded shallowly:
* spreadsheet cell values become the inductive type `Value` (strings,
  integers, booleans), with `Option Value` for a cell slot (`none` is
  Python's `None` / an absent cell);
* the worksheet is a list of positioned cells (`Sheet`), mirroring
  openpyxl's dictionary from (row, column) to cell, with the operations
  the source actually uses (`setCell`, `insertRowsOp`, `insertColsOp`,
  delete, append, `maxRow`/`maxCol`);
* Python's stable `list.sort(key=...)` is modelled by the stable
  insertion sort `List.insertionSort` over the computed sort keys.

All string operations are modelled for ASCII data, which matches both
the source's data domain and the spec's "locale-agnostic ASCII" reading.
-/

/-- Cell values occurring in the spreadsheets: Python strings, integers and
booleans.  A cell slot is `Option Value`; `none` plays the role of Python's
`None` as well as of an absent cell. -/
inductive Value where
  | vStr (s : String)
  | vInt (n : Int)
  | vBool (b : Bool)
deriving DecidableEq

/-- Python `str(v)` for the supported values. -/
def pyStr : Value → String
  | .vStr s => s
  | .vInt n => toString n
  | .vBool b => if b then "True" else "False"

/-- Python truthiness of a cell slot: `None`, `""`, `0` and `False` are falsy,
everything else is truthy. -/
def pyFalsy : Option Value → Bool
  | none => true
  | some (.vStr s) => s == ""
  | some (.vInt n) => n == 0
  | some (.vBool b) => !b

/-- Python `str.lower()` on ASCII strings (character-wise). -/
def pyLower (s : String) : String := ⟨s.data.map Char.toLower⟩

/-- Python `str.upper()` on ASCII strings (character-wise). -/
def pyUpper (s : String) : String := ⟨s.data.map Char.toUpper⟩

/-- Python `str.strip()`: remove leading and trailing whitespace. -/
def pyStrip (s : String) : String :=
  ⟨((s.data.dropWhile Char.isWhitespace).reverse.dropWhile Char.isWhitespace).reverse⟩

/-- Rendered length of a cell used by the auto-fit pass: falsy cells are
skipped by the source (`if cell.value:`), so they contribute 0. -/
def truthyLen (v : Option Value) : Nat :=
  match v with
  | none => 0
  | some w => if pyFalsy (some w) then 0 else (pyStr w).length

/-- Helper for `pyTitle`: the boolean records whether the previous character
was a (cased) letter. -/
def pyTitleAux : Bool → List Char → List Char
  | _, [] => []
  | prev, c :: cs =>
    if c.isAlpha then
      (if prev then c.toLower else c.toUpper) :: pyTitleAux true cs
    else
      c :: pyTitleAux false cs

/-- Python `str.title()` on ASCII strings: a letter is upper-cased when it
follows a non-letter and lower-cased otherwise. -/
def pyTitle (s : String) : String := ⟨pyTitleAux false s.data⟩

/-- `transform_text` from `newformatter.py` (lines 146-158): title-case the
string, then apply the exact-match substitution table.  The source table has
exactly four entries. -/
def transform_text (text : String) : String :=
  let new_text := pyTitle text
  if new_text = "Bachelors Of Commerce - Commerce" then "B.Com. (Hons.)"
  else if new_text = "Bachelors Of Arts - Humanities" then "B.A. Hons. Economics"
  else if new_text = "Cgpa" then "CGPA"
  else if new_text = "Na" then "NA"
  else new_text

/-- Identity-column aliases dropped during header unification
(`h.strip().lower() in ["s. no.", "serial no"]`). -/
def isIdentity (h : String) : Bool :=
  (pyLower (pyStrip h)) == "s. no." || (pyLower (pyStrip h)) == "serial no"

/-- Roll-number aliases triggering the upper-casing post-step
(`header.strip().lower() in ["roll no","roll number","roll no."]`). -/
def isRollAlias (h : String) : Bool :=
  (pyLower (pyStrip h)) == "roll no" || (pyLower (pyStrip h)) == "roll number" ||
    (pyLower (pyStrip h)) == "roll no."

/-- A merged row, represented as the list of its cell slots in
`UnifiedHeader` order (the Python dict has exactly the unified headers as
keys, in that order). -/
abbrev MergedRow := List (Option Value)

/-- The per-cell transformation of `process_excel` (lines 199-206): string
values go through `transform_text`, and values in a roll-number column are
upper-cased afterwards; non-string values are untouched. -/
def transformCell (h : String) (v : Option Value) : Option Value :=
  match v with
  | some (Value.vStr s) =>
    let t := transform_text s
    some (Value.vStr (if isRollAlias h then pyUpper t else t))
  | v => v

/-- The text-transformation pass applied to one merged row
(`for header in combined_headers: ...`). -/
def transformRow (combined : List String) (row : MergedRow) : MergedRow :=
  List.zipWith transformCell combined row

/-- The text-transformation pass applied to the whole merged dataset
(`for row in combined_data: ...`). -/
def transformAll (combined : List String) (rows : List MergedRow) : List MergedRow :=
  rows.map (transformRow combined)

/-- Sort key of one cell: Python's `str(r.get(h) or "").lower()`.  A falsy
value (`None`, `""`, `0`, `False`) yields the empty key. -/
def sortKey (v : Option Value) : String :=
  if pyFalsy v then ""
  else match v with
    | some w => pyLower (pyStr w)
    | none => ""

/-- Position of the column the dataset is sorted by: the first header whose
stripped, case-folded name is exactly `"name"`. -/
def nameIdx (combined : List String) : Option Nat :=
  combined.findIdx? (fun h => (pyLower (pyStrip h)) == "name")

/-- Lexicographic comparison of character lists by code point; this is how
Python compares the (ASCII) key strings produced by `sortKey`. -/
def charsLe : List Char → List Char → Bool
  | [], _ => true
  | _ :: _, [] => false
  | a :: as, b :: bs =>
    if a.toNat < b.toNat then true
    else if b.toNat < a.toNat then false
    else charsLe as bs

/-- Python's `<=` on strings: lexicographic by code point. -/
def strLe (a b : String) : Bool := charsLe a.data b.data

theorem charsLe_refl (as : List Char) : charsLe as as = true := by
  induction as with
  | nil => rfl
  | cons a as ih => simp [charsLe, ih]

theorem charsLe_total (as bs : List Char) :
    charsLe as bs = true ∨ charsLe bs as = true := by
  induction as generalizing bs with
  | nil => exact Or.inl rfl
  | cons a as ih =>
    cases bs with
    | nil => exact Or.inr rfl
    | cons b bs =>
      by_cases hab : a.toNat < b.toNat
      · exact Or.inl (by simp [charsLe, hab])
      · by_cases hba : b.toNat < a.toNat
        · exact Or.inr (by simp [charsLe, hba])
        · rcases ih bs with h | h
          · exact Or.inl (by simp [charsLe, hab, hba, h])
          · exact Or.inr (by simp [charsLe, hab, hba, h])

theorem charsLe_trans {as bs cs : List Char} (h1 : charsLe as bs = true)
    (h2 : charsLe bs cs = true) : charsLe as cs = true := by
  induction as generalizing bs cs with
  | nil => rfl
  | cons a as ih =>
    cases bs with
    | nil => simp [charsLe] at h1
    | cons b bs =>
      cases cs with
      | nil => simp [charsLe] at h2
      | cons c cs =>
        simp only [charsLe] at h1 h2 ⊢
        by_cases hab : a.toNat < b.toNat
        · by_cases hbc : b.toNat < c.toNat
          · simp [show a.toNat < c.toNat by omega]
          · by_cases hcb : c.toNat < b.toNat
            · simp [hbc, hcb] at h2
            · simp [show a.toNat < c.toNat by omega]
        · by_cases hba : b.toNat < a.toNat
          · simp [hab, hba] at h1
          · by_cases hbc : b.toNat < c.toNat
            · simp [show a.toNat < c.toNat by omega]
            · by_cases hcb : c.toNat < b.toNat
              · simp [hbc, hcb] at h2
              · have hac : ¬ a.toNat < c.toNat := by omega
                have hca : ¬ c.toNat < a.toNat := by omega
                simp [hab, hba] at h1
                simp [hbc, hcb] at h2
                simpa [hac, hca] using ih h1 h2

/-- Comparison of two merged rows by the sort key of their column `i`. -/
def rowLe (i : Nat) (a b : MergedRow) : Prop :=
  strLe (sortKey (a.getD i none)) (sortKey (b.getD i none)) = true

instance (i : Nat) (a b : MergedRow) : Decidable (rowLe i a b) :=
  inferInstanceAs (Decidable (_ = _))

instance (i : Nat) : IsTotal MergedRow (rowLe i) :=
  ⟨fun x y => charsLe_total (sortKey (x.getD _ none)).data (sortKey (y.getD _ none)).data⟩

instance (i : Nat) : IsTrans MergedRow (rowLe i) :=
  ⟨fun _ _ _ h1 h2 => charsLe_trans h1 h2⟩

/-- The ordering pass of `process_excel` (lines 208-211): when a "name"
column exists, Python's stable `list.sort` by the case-insensitive key is
modelled by the stable insertion sort; otherwise the merge order stands. -/
def orderRows (combined : List String) (rows : List MergedRow) : List MergedRow :=
  match nameIdx combined with
  | some i => List.insertionSort (rowLe i) rows
  | none => rows

/-- One step of header unification in `upload` (lines 358-362): drop identity
aliases, then append the header unless already present by raw equality. -/
def addHeader (acc : List String) (h : String) : List String :=
  if isIdentity h then acc
  else if h ∈ acc then acc
  else acc ++ [h]

/-- Header unification across all uploaded files (`upload`, lines 344-362).
Each file contributes its first-row cells; `none` entries are the `None`
header cells the source filters out before looping. -/
def unifyHeaders (files : List (List (Option String))) : List String :=
  files.foldl (fun acc hs => (hs.filterMap id).foldl addHeader acc) []

/-- One step of plain first-seen de-duplication (specification-side notion
used to state the ordering guarantee of C8). -/
def insHeader (acc : List String) (h : String) : List String :=
  if h ∈ acc then acc else acc ++ [h]

/-- First-seen de-duplication of a flat header list (specification-side
notion used to state the ordering guarantee of C8). -/
def dedupFirstSeen (l : List String) : List String :=
  l.foldl insHeader []

/-- One source table: its header row (with `none` for empty header cells,
positions preserved) and its data rows. -/
structure SourceTable where
  headerRow : List (Option String)
  rows : List (List (Option Value))

/-- Helper for `fileHeaderCol`: scan the header row from position `i`
(1-based); a later occurrence of the same header name overwrites an earlier
one, exactly like the Python dict assignment. -/
def fileHeaderColAux (h : String) (i : Nat) : List (Option String) → Option Nat
  | [] => none
  | g? :: rest =>
    let tail := fileHeaderColAux h (i + 1) rest
    match g? with
    | none => tail
    | some g =>
      if isIdentity g then tail
      else if g == h then (match tail with | some c => some c | none => some i)
      else tail

/-- `file_header_map` of `process_excel` (lines 180-186) as a lookup: the
1-based worksheet column of header `h`, skipping `None` cells and identity
aliases, with later duplicates overwriting earlier ones. -/
def fileHeaderCol (hs : List (Option String)) (h : String) : Option Nat :=
  fileHeaderColAux h 1 hs

/-- Projection of one source data row onto the combined headers
(`process_excel`, lines 188-196): a column present in the source reads the
cell at its recorded worksheet column, an absent column yields `None`. -/
def rowToMerged (hs : List (Option String)) (combined : List String)
    (row : List (Option Value)) : MergedRow :=
  combined.map (fun h =>
    match fileHeaderCol hs h with
    | some c => row.getD (c - 1) none
    | none => none)

/-- The merge pass of `process_excel` (lines 176-197): every file's rows are
projected and appended in file order, rows in original order. -/
def mergeAll (files : List SourceTable) (combined : List String) : List MergedRow :=
  files.flatMap (fun f => f.rows.map (rowToMerged f.headerRow combined))

/-- The full data pipeline in front of the layout builder:
merge, transform, order. -/
def pipelineRows (files : List SourceTable) (combined : List String) : List MergedRow :=
  orderRows combined (transformAll combined (mergeAll files combined))


/-! ### The worksheet model

openpyxl's worksheet is a dictionary from (row, column) to cells.  We model
it as a list of positioned cells in insertion order, with key update in
place, exactly like the dictionary.  Only the operations the source uses are
modelled; purely visual attributes (fonts, fills, borders, row heights,
grid lines, print area) are not part of the model. -/

/-- One worksheet cell: 1-based row and column, and its value slot. -/
structure Cell where
  row : Nat
  col : Nat
  val : Option Value
deriving DecidableEq

/-- A worksheet: its cells in insertion order, keys unique. -/
abbrev Sheet := List Cell

/-- Does cell `x` sit at key (`r`, `c`)? -/
def keyAt (x : Cell) (r c : Nat) : Bool := x.row == r && x.col == c

/-- `ws.cell(row=r, column=c, value=v)`: update the cell in place when the
key exists, otherwise add a new cell. -/
def setCell (s : Sheet) (r c : Nat) (v : Option Value) : Sheet :=
  if s.any (fun x => keyAt x r c) then
    s.map (fun x => if keyAt x r c then ⟨r, c, v⟩ else x)
  else s ++ [⟨r, c, v⟩]

/-- `ws.cell(row=r, column=c)` with no value: materialise an empty cell when
the key is absent (openpyxl creates the cell on access). -/
def getOrCreate (s : Sheet) (r c : Nat) : Sheet :=
  if s.any (fun x => keyAt x r c) then s else s ++ [⟨r, c, none⟩]

/-- Read a cell's value; an absent cell reads as `None`, as in openpyxl. -/
def getCell (s : Sheet) (r c : Nat) : Option Value :=
  match s.find? (fun x => keyAt x r c) with
  | some x => x.val
  | none => none

/-- `ws.max_row`: the largest occupied row (1 when the sheet is empty). -/
def maxRow (s : Sheet) : Nat := s.foldr (fun x m => max x.row m) 1

/-- `ws.max_column`: the largest occupied column (1 when the sheet is empty). -/
def maxCol (s : Sheet) : Nat := s.foldr (fun x m => max x.col m) 1

/-- `ws.insert_rows(idx, amount)`: every cell at row ≥ `idx` moves down. -/
def insertRowsOp (s : Sheet) (idx amount : Nat) : Sheet :=
  s.map (fun x => if idx ≤ x.row then ⟨x.row + amount, x.col, x.val⟩ else x)

/-- `ws.insert_cols(idx, amount)`: every cell at column ≥ `idx` moves right. -/
def insertColsOp (s : Sheet) (idx amount : Nat) : Sheet :=
  s.map (fun x => if idx ≤ x.col then ⟨x.row, x.col + amount, x.val⟩ else x)

/-- `ws.delete_rows(idx, amount)`: drop the rows, shift the ones below up. -/
def deleteRowsOp (s : Sheet) (idx amount : Nat) : Sheet :=
  (s.filter (fun x => x.row < idx || idx + amount ≤ x.row)).map
    (fun x => if idx + amount ≤ x.row then ⟨x.row - amount, x.col, x.val⟩ else x)

/-- `ws.delete_cols(idx, amount)`: drop the columns, shift the rest left. -/
def deleteColsOp (s : Sheet) (idx amount : Nat) : Sheet :=
  (s.filter (fun x => x.col < idx || idx + amount ≤ x.col)).map
    (fun x => if idx + amount ≤ x.col then ⟨x.row, x.col - amount, x.val⟩ else x)

/-- Write a list of values left to right on row `r` starting at column `c0`
(`for j, value in enumerate(row_data, start=1): cell(...)`). -/
def writeRow (s : Sheet) (r c0 : Nat) : List (Option Value) → Sheet
  | [] => s
  | v :: vs => writeRow (setCell s r c0 v) r (c0 + 1) vs

/-- Write a block of rows top to bottom starting at row `r0`
(`for i, row_data in enumerate(data_rows, start=2): ...`). -/
def writeDataRows (s : Sheet) (r0 : Nat) : List (List (Option Value)) → Sheet
  | [] => s
  | row :: rest => writeDataRows (writeRow s r0 1 row) (r0 + 1) rest

/-- Column-width assignments, newest first (a later
`column_dimensions[...].width = w` shadows an earlier one). -/
abbrev Widths := List (Nat × Nat)

/-- `ws.column_dimensions[letter].width = width`. -/
def setWidth (w : Widths) (c width : Nat) : Widths := (c, width) :: w

/-- The effective width of column `c` (0 when never assigned; the source
only ever reads columns it has assigned). -/
def getWidth (w : Widths) (c : Nat) : Nat :=
  match w.find? (fun p => p.1 == c) with
  | some p => p.2
  | none => 0

/-- The auto-fit scan of one column (lines 315-322): the longest rendered
value over rows 1..maxR, skipping falsy cell values (`if cell.value:`). -/
def colMaxLen (s : Sheet) (c maxR : Nat) : Nat :=
  s.foldr (fun x m =>
    if x.col == c && decide (x.row ≤ maxR) && !pyFalsy x.val then
      max (truthyLen x.val) m
    else m) 0

/-- The artefact produced by the layout builder: the final cells, the merged
ranges (start row, start column, end row, end column), the column widths,
and the extent of the populated rectangle. -/
structure BuildResult where
  sheet : Sheet
  merges : List (Nat × Nat × Nat × Nat)
  widths : Widths
  usedLastRow : Nat
  usedLastCol : Nat

/-- The layout builder: lines 213-327 of `process_excel`, operating on the
already merged, transformed and ordered dataset.

Follows the source step by step: header row (`"S. No."` then the combined
headers, written raw), data rows (`[None] + [row.get(h) for h in headers]`),
serial numbers, header widths, the two top margin/title rows, the title-band
formatting pass (which materialises the row-2 cells), left and right margin
columns, the bottom blank row, the title merge and value, the (vacuous)
excess-row/column deletion, and the auto-fit pass over the data columns.

Two source details are represented implicitly: the style loops over existing
header/data cells assign only visual attributes, which the model does not
carry; and `new_order` is a dict keyed by header names, faithfully a list
only when the combined headers are duplicate-free and do not contain
`"S. No."` itself — the grid theorems carry those hypotheses. -/
def buildOutput (combined : List String) (data : List MergedRow)
    (title : String) : BuildResult :=
  let dataMaxCol := combined.length + 1
  let dataMaxRow := data.length + 1
  let s1 := writeRow [] 1 1
    (some (Value.vStr "S. No.") :: combined.map (fun h => some (Value.vStr h)))
  let dataRows := data.map
    (fun r => none :: (List.range combined.length).map (fun j => r.getD j none))
  let s2 := writeDataRows s1 2 dataRows
  let s3 := (List.range' 2 (dataMaxRow - 1)).foldl
    (fun t i => setCell t i 1 (some (Value.vInt ((i : Int) - 1)))) s2
  let w1 := (List.range' 1 dataMaxCol).foldl (fun w c => setWidth w c 20) []
  let s4 := insertRowsOp s3 1 2
  let s5 := (List.range' 1 dataMaxCol).foldl (fun t c => getOrCreate t 2 c) s4
  let s6 := insertColsOp s5 1 1
  let w2 := setWidth w1 1 2
  let rightMarginIndex := dataMaxCol + 2
  let s7 := insertColsOp s6 rightMarginIndex 1
  let w3 := setWidth w2 rightMarginIndex 2
  let s8 := writeRow s7 (maxRow s7 + 1) 1 (List.replicate (maxCol s7) none)
  let usedLastRow := maxRow s8
  let usedLastCol := maxCol s8
  let mergesOut := [(2, 2, 2, usedLastCol)]
  let s9 := setCell s8 2 2 (some (Value.vStr title))
  let totalRows := maxRow s9
  let s10 := if usedLastRow < totalRows
    then deleteRowsOp s9 (usedLastRow + 1) (totalRows - usedLastRow) else s9
  let totalCols := maxCol s10
  let s11 := if usedLastCol < totalCols
    then deleteColsOp s10 (usedLastCol + 1) (totalCols - usedLastCol) else s10
  let w4 := (List.range' 2 (usedLastCol - 1)).foldl
    (fun w c => setWidth w c (colMaxLen s11 c usedLastRow + 2)) w3
  ⟨s11, mergesOut, w4, usedLastRow, usedLastCol⟩

/-- The whole engine run: merge, transform, order, lay out.  This is
`process_excel(file_paths, combined_headers, desired_filename)` with file
I/O replaced by in-memory source tables. -/
def process_excel (files : List SourceTable) (combined : List String)
    (title : String) : BuildResult :=
  buildOutput combined (pipelineRows files combined) title

/-! ### Characterisation of the built sheet

The following blocks describe the cell lists the builder produces; the
lemmas below prove that `buildOutput` constructs exactly these blocks. -/

/-- The cells of one written row: values at columns `c0`, `c0+1`, ... -/
def rowCells (r c0 : Nat) : List (Option Value) → Sheet
  | [] => []
  | v :: vs => ⟨r, c0, v⟩ :: rowCells r (c0 + 1) vs

/-- The cells of a written block of rows starting at row `r0`. -/
def blockCells (r0 : Nat) : List (List (Option Value)) → Sheet
  | [] => []
  | row :: rest => rowCells r0 1 row ++ blockCells (r0 + 1) rest

/-- The data block after serial numbering: each row carries the serial
`s0 + i` at column `c0` followed by its field values. -/
def serialCells (r0 : Nat) (s0 : Int) (c0 : Nat) :
    List (List (Option Value)) → Sheet
  | [] => []
  | fields :: rest =>
    (⟨r0, c0, some (Value.vInt s0)⟩ :: rowCells r0 (c0 + 1) fields) ++
      serialCells (r0 + 1) (s0 + 1) c0 rest

/-- `k` cells of the constant value `v` on row `r`, columns `c0`, `c0+1`, ... -/
def bandCells (r c0 : Nat) : Nat → Option Value → Sheet
  | 0, _ => []
  | k + 1, v => ⟨r, c0, v⟩ :: bandCells r (c0 + 1) k v

theorem keyAt_eq_true {x : Cell} {r c : Nat} :
    keyAt x r c = true ↔ (x.row = r ∧ x.col = c) := by
  simp [keyAt]

theorem mem_rowCells {x : Cell} {r c0 : Nat} {vs : List (Option Value)}
    (hx : x ∈ rowCells r c0 vs) :
    x.row = r ∧ c0 ≤ x.col ∧ x.col < c0 + vs.length := by
  induction vs generalizing c0 with
  | nil => simp [rowCells] at hx
  | cons v vs ih =>
    simp only [rowCells, List.mem_cons] at hx
    rcases hx with rfl | hx
    · exact ⟨rfl, Nat.le_refl _, by simp⟩
    · obtain ⟨h1, h2, h3⟩ := ih hx
      exact ⟨h1, by omega, by simp only [List.length_cons]; omega⟩

theorem mem_blockCells {x : Cell} {r0 : Nat} {rows : List (List (Option Value))}
    (hx : x ∈ blockCells r0 rows) :
    r0 ≤ x.row ∧ x.row < r0 + rows.length ∧ 1 ≤ x.col := by
  induction rows generalizing r0 with
  | nil => simp [blockCells] at hx
  | cons row rest ih =>
    simp only [blockCells, List.mem_append] at hx
    rcases hx with hx | hx
    · have := mem_rowCells hx
      simp only [List.length_cons]
      omega
    · have := ih hx
      simp only [List.length_cons]
      omega

theorem mem_blockCells_col {x : Cell} {r0 L : Nat} {rows : List (List (Option Value))}
    (hL : ∀ row ∈ rows, row.length ≤ L) (hx : x ∈ blockCells r0 rows) :
    x.col ≤ L := by
  induction rows generalizing r0 with
  | nil => simp [blockCells] at hx
  | cons row rest ih =>
    simp only [blockCells, List.mem_append] at hx
    rcases hx with hx | hx
    · have h1 := mem_rowCells hx
      have h2 := hL row (by simp)
      omega
    · exact ih (fun q hq => hL q (by simp [hq])) hx

theorem mem_serialCells {x : Cell} {r0 : Nat} {s0 : Int} {c0 L : Nat}
    {rows : List (List (Option Value))}
    (hL : ∀ f ∈ rows, f.length ≤ L) (hx : x ∈ serialCells r0 s0 c0 rows) :
    r0 ≤ x.row ∧ x.row < r0 + rows.length ∧ c0 ≤ x.col ∧ x.col ≤ c0 + L := by
  induction rows generalizing r0 s0 with
  | nil => simp [serialCells] at hx
  | cons f rest ih =>
    simp only [serialCells, List.mem_append, List.mem_cons] at hx
    rcases hx with (rfl | hx) | hx
    · refine ⟨Nat.le_refl _, by simp, Nat.le_refl _, ?_⟩
      show c0 ≤ c0 + L
      omega
    · have h1 := mem_rowCells hx
      have h2 := hL f (by simp)
      simp only [List.length_cons]
      omega
    · have := ih (fun q hq => hL q (by simp [hq])) hx
      simp only [List.length_cons]
      omega

theorem mem_bandCells {x : Cell} {r c0 k : Nat} {v : Option Value}
    (hx : x ∈ bandCells r c0 k v) :
    x.row = r ∧ c0 ≤ x.col ∧ x.col < c0 + k ∧ x.val = v := by
  induction k generalizing c0 with
  | zero => simp [bandCells] at hx
  | succ k ih =>
    simp only [bandCells, List.mem_cons] at hx
    rcases hx with rfl | hx
    · refine ⟨rfl, Nat.le_refl _, ?_, rfl⟩
      show c0 < c0 + (k + 1)
      omega
    · obtain ⟨h1, h2, h3, h4⟩ := ih hx
      exact ⟨h1, by omega, by omega, h4⟩

theorem setCell_absent {s : Sheet} {r c : Nat} {v : Option Value}
    (h : ∀ x ∈ s, ¬(x.row = r ∧ x.col = c)) :
    setCell s r c v = s ++ [⟨r, c, v⟩] := by
  have hc : s.any (fun x => keyAt x r c) = false := by
    rw [List.any_eq_false]
    intro x hx
    simp only [keyAt_eq_true]
    exact h x hx
  simp [setCell, hc]

theorem getOrCreate_absent {s : Sheet} {r c : Nat}
    (h : ∀ x ∈ s, ¬(x.row = r ∧ x.col = c)) :
    getOrCreate s r c = s ++ [⟨r, c, none⟩] := by
  have hc : s.any (fun x => keyAt x r c) = false := by
    rw [List.any_eq_false]
    intro x hx
    simp only [keyAt_eq_true]
    exact h x hx
  simp [getOrCreate, hc]

theorem map_setCell_keep {l : Sheet} {r c : Nat} {y : Cell}
    (h : ∀ x ∈ l, ¬(x.row = r ∧ x.col = c)) :
    l.map (fun x => if keyAt x r c then y else x) = l := by
  induction l with
  | nil => rfl
  | cons a t ih =>
    have ha : ¬ (keyAt a r c = true) := by
      rw [keyAt_eq_true]
      exact h a (by simp)
    simp only [List.map_cons, if_neg ha, List.cons.injEq, true_and]
    exact ih (fun x hx => h x (by simp [hx]))

theorem setCell_present_split {A B : Sheet} {r c : Nat} {v v' : Option Value}
    (hA : ∀ x ∈ A, ¬(x.row = r ∧ x.col = c))
    (hB : ∀ x ∈ B, ¬(x.row = r ∧ x.col = c)) :
    setCell (A ++ ⟨r, c, v⟩ :: B) r c v' = A ++ ⟨r, c, v'⟩ :: B := by
  have hc : (A ++ ⟨r, c, v⟩ :: B).any (fun x => keyAt x r c) = true := by
    rw [List.any_eq_true]
    exact ⟨⟨r, c, v⟩, by simp, by simp [keyAt]⟩
  have hmid : (if keyAt (⟨r, c, v⟩ : Cell) r c then (⟨r, c, v'⟩ : Cell) else ⟨r, c, v⟩)
      = ⟨r, c, v'⟩ := by simp [keyAt]
  simp only [setCell, hc, if_true, List.map_append, List.map_cons]
  rw [map_setCell_keep hA, map_setCell_keep hB, hmid]

theorem writeRow_fresh {vs : List (Option Value)} {s : Sheet} {r c0 : Nat}
    (h : ∀ x ∈ s, ¬(x.row = r ∧ c0 ≤ x.col)) :
    writeRow s r c0 vs = s ++ rowCells r c0 vs := by
  induction vs generalizing s c0 with
  | nil => simp [writeRow, rowCells]
  | cons v vs ih =>
    simp only [writeRow, rowCells]
    rw [setCell_absent (fun x hx hand => h x hx ⟨hand.1, Nat.le_of_eq hand.2.symm⟩)]
    have hg : ∀ x ∈ s ++ [(⟨r, c0, v⟩ : Cell)], ¬(x.row = r ∧ c0 + 1 ≤ x.col) := by
      intro x hx hand
      rcases List.mem_append.1 hx with hx | hx
      · exact h x hx ⟨hand.1, by omega⟩
      · simp only [List.mem_singleton] at hx
        subst hx
        simp only at hand
        omega
    rw [ih hg, List.append_assoc]
    rfl

theorem writeDataRows_fresh {rows : List (List (Option Value))} {s : Sheet} {r0 : Nat}
    (h : ∀ x ∈ s, x.row < r0) :
    writeDataRows s r0 rows = s ++ blockCells r0 rows := by
  induction rows generalizing s r0 with
  | nil => simp [writeDataRows, blockCells]
  | cons row rest ih =>
    simp only [writeDataRows, blockCells]
    have hf : ∀ x ∈ s, ¬(x.row = r0 ∧ 1 ≤ x.col) := by
      intro x hx hand
      have := h x hx
      omega
    rw [writeRow_fresh hf]
    have hg : ∀ x ∈ s ++ rowCells r0 1 row, x.row < r0 + 1 := by
      intro x hx
      rcases List.mem_append.1 hx with hx | hx
      · have := h x hx
        omega
      · have := mem_rowCells hx
        omega
    rw [ih hg, List.append_assoc]

theorem serial_fold {rows : List (List (Option Value))} {A : Sheet} {r0 : Nat}
    (hA : ∀ x ∈ A, x.row < r0) (hne : ∀ f ∈ rows, f ≠ []) :
    (List.range' r0 rows.length).foldl
      (fun t i => setCell t i 1 (some (Value.vInt ((i : Int) - 1))))
      (A ++ blockCells r0 rows)
    = A ++ serialCells r0 ((r0 : Int) - 1) 1 (rows.map List.tail) := by
  induction rows generalizing A r0 with
  | nil => simp [blockCells, serialCells]
  | cons row rest ih =>
    obtain ⟨v, fields, rfl⟩ : ∃ v fields, row = v :: fields := by
      cases row with
      | nil => exact absurd rfl (hne [] (by simp))
      | cons v fields => exact ⟨v, fields, rfl⟩
    simp only [List.length_cons, List.range'_succ, List.foldl_cons, blockCells, rowCells]
    have hshape : A ++ (⟨r0, 1, v⟩ :: rowCells r0 (1 + 1) fields) ++ blockCells (r0 + 1) rest
      = A ++ (⟨r0, 1, v⟩ :: (rowCells r0 2 fields ++ blockCells (r0 + 1) rest)) := by
      simp [List.append_assoc]
    have hBside : ∀ x ∈ rowCells r0 2 fields ++ blockCells (r0 + 1) rest,
        ¬(x.row = r0 ∧ x.col = 1) := by
      intro x hx hand
      rcases List.mem_append.1 hx with hx | hx
      · have := mem_rowCells hx
        omega
      · have := mem_blockCells hx
        omega
    have hAside : ∀ x ∈ A, ¬(x.row = r0 ∧ x.col = 1) := by
      intro x hx hand
      have := hA x hx
      omega
    rw [show A ++ ((⟨r0, 1, v⟩ :: rowCells r0 (1 + 1) fields) ++ blockCells (r0 + 1) rest)
        = A ++ (⟨r0, 1, v⟩ :: (rowCells r0 2 fields ++ blockCells (r0 + 1) rest)) by
      simp [List.append_assoc]]
    rw [setCell_present_split hAside hBside]
    have hA2 : ∀ x ∈ A ++ (⟨r0, 1, some (Value.vInt ((r0 : Int) - 1))⟩ :: rowCells r0 2 fields),
        x.row < r0 + 1 := by
      intro x hx
      rcases List.mem_append.1 hx with hx | hx
      · have := hA x hx
        omega
      · rcases List.mem_cons.1 hx with rfl | hx
        · simp
        · have := mem_rowCells hx
          omega
    have hshape2 : A ++ (⟨r0, 1, some (Value.vInt ((r0 : Int) - 1))⟩ ::
          (rowCells r0 2 fields ++ blockCells (r0 + 1) rest))
        = (A ++ (⟨r0, 1, some (Value.vInt ((r0 : Int) - 1))⟩ :: rowCells r0 2 fields))
            ++ blockCells (r0 + 1) rest := by
      simp [List.append_assoc]
    rw [hshape2, ih hA2 (fun f hf => hne f (by simp [hf]))]
    have hcast : ((r0 + 1 : Nat) : Int) - 1 = ((r0 : Int) - 1) + 1 := by
      push_cast
      ring
    simp only [List.map_cons, List.tail_cons, serialCells, hcast, List.append_assoc,
      List.cons_append]

theorem band_fold {k : Nat} {s : Sheet} {c0 : Nat}
    (h : ∀ x ∈ s, ¬(x.row = 2 ∧ c0 ≤ x.col)) :
    (List.range' c0 k).foldl (fun t c => getOrCreate t 2 c) s
      = s ++ bandCells 2 c0 k none := by
  induction k generalizing s c0 with
  | zero => simp [bandCells]
  | succ k ih =>
    simp only [List.range'_succ, List.foldl_cons, bandCells]
    rw [getOrCreate_absent (fun x hx hand => h x hx ⟨hand.1, Nat.le_of_eq hand.2.symm⟩)]
    have hg : ∀ x ∈ s ++ [(⟨2, c0, none⟩ : Cell)], ¬(x.row = 2 ∧ c0 + 1 ≤ x.col) := by
      intro x hx hand
      rcases List.mem_append.1 hx with hx | hx
      · exact h x hx ⟨hand.1, by omega⟩
      · simp only [List.mem_singleton] at hx
        subst hx
        simp only at hand
        omega
    rw [ih hg, List.append_assoc]
    rfl

theorem insertRowsOp_shift_all {s : Sheet} {a : Nat} (h : ∀ x ∈ s, 1 ≤ x.row) :
    insertRowsOp s 1 a = s.map (fun x => ⟨x.row + a, x.col, x.val⟩) := by
  unfold insertRowsOp
  apply List.map_congr_left
  intro x hx
  rw [if_pos (h x hx)]

theorem insertColsOp_shift_all {s : Sheet} {a : Nat} (h : ∀ x ∈ s, 1 ≤ x.col) :
    insertColsOp s 1 a = s.map (fun x => ⟨x.row, x.col + a, x.val⟩) := by
  unfold insertColsOp
  apply List.map_congr_left
  intro x hx
  rw [if_pos (h x hx)]

theorem insertColsOp_noop {s : Sheet} {idx a : Nat} (h : ∀ x ∈ s, x.col < idx) :
    insertColsOp s idx a = s := by
  unfold insertColsOp
  have : ∀ x ∈ s, (if idx ≤ x.col then (⟨x.row, x.col + a, x.val⟩ : Cell) else x) = x := by
    intro x hx
    rw [if_neg (by have := h x hx; omega)]
  rw [List.map_congr_left this]
  exact List.map_id' s

theorem rowCells_shift_row {vs : List (Option Value)} {r c0 : Nat} (a : Nat) :
    (rowCells r c0 vs).map (fun x => (⟨x.row + a, x.col, x.val⟩ : Cell))
      = rowCells (r + a) c0 vs := by
  induction vs generalizing c0 with
  | nil => rfl
  | cons v vs ih => simp [rowCells, ih]

theorem rowCells_shift_col {vs : List (Option Value)} {r c0 : Nat} (a : Nat) :
    (rowCells r c0 vs).map (fun x => (⟨x.row, x.col + a, x.val⟩ : Cell))
      = rowCells r (c0 + a) vs := by
  induction vs generalizing c0 with
  | nil => rfl
  | cons v vs ih =>
    simp only [rowCells, List.map_cons, ih]
    rw [show c0 + a + 1 = c0 + 1 + a by omega]

theorem serialCells_shift_row {rows : List (List (Option Value))} {r0 : Nat}
    {s0 : Int} {c0 : Nat} (a : Nat) :
    (serialCells r0 s0 c0 rows).map (fun x => (⟨x.row + a, x.col, x.val⟩ : Cell))
      = serialCells (r0 + a) s0 c0 rows := by
  induction rows generalizing r0 s0 with
  | nil => rfl
  | cons f rest ih =>
    simp only [serialCells, List.map_append, List.map_cons, ih, rowCells_shift_row]
    rw [show r0 + a + 1 = r0 + 1 + a by omega]

theorem serialCells_shift_col {rows : List (List (Option Value))} {r0 : Nat}
    {s0 : Int} {c0 : Nat} (a : Nat) :
    (serialCells r0 s0 c0 rows).map (fun x => (⟨x.row, x.col + a, x.val⟩ : Cell))
      = serialCells r0 s0 (c0 + a) rows := by
  induction rows generalizing r0 s0 with
  | nil => rfl
  | cons f rest ih =>
    simp only [serialCells, List.map_append, List.map_cons, ih, rowCells_shift_col]
    rw [show c0 + a + 1 = c0 + 1 + a by omega]

theorem bandCells_shift_col {k : Nat} {r c0 : Nat} {v : Option Value} (a : Nat) :
    (bandCells r c0 k v).map (fun x => (⟨x.row, x.col + a, x.val⟩ : Cell))
      = bandCells r (c0 + a) k v := by
  induction k generalizing c0 with
  | zero => rfl
  | succ k ih =>
    simp only [bandCells, List.map_cons, ih]
    rw [show c0 + a + 1 = c0 + 1 + a by omega]

theorem maxRow_cons {y : Cell} {t : Sheet} : maxRow (y :: t) = max y.row (maxRow t) := rfl

theorem maxCol_cons {y : Cell} {t : Sheet} : maxCol (y :: t) = max y.col (maxCol t) := rfl

theorem le_maxRow {s : Sheet} {x : Cell} (hx : x ∈ s) : x.row ≤ maxRow s := by
  induction s with
  | nil => simp at hx
  | cons y t ih =>
    rw [maxRow_cons]
    rcases List.mem_cons.1 hx with rfl | hx
    · omega
    · have := ih hx
      omega

theorem le_maxCol {s : Sheet} {x : Cell} (hx : x ∈ s) : x.col ≤ maxCol s := by
  induction s with
  | nil => simp at hx
  | cons y t ih =>
    rw [maxCol_cons]
    rcases List.mem_cons.1 hx with rfl | hx
    · omega
    · have := ih hx
      omega

theorem maxRow_le {s : Sheet} {m : Nat} (h1 : 1 ≤ m) (h : ∀ x ∈ s, x.row ≤ m) :
    maxRow s ≤ m := by
  induction s with
  | nil => exact h1
  | cons y t ih =>
    rw [maxRow_cons]
    have := h y (by simp)
    have := ih (fun x hx => h x (by simp [hx]))
    omega

theorem maxCol_le {s : Sheet} {m : Nat} (h1 : 1 ≤ m) (h : ∀ x ∈ s, x.col ≤ m) :
    maxCol s ≤ m := by
  induction s with
  | nil => exact h1
  | cons y t ih =>
    rw [maxCol_cons]
    have := h y (by simp)
    have := ih (fun x hx => h x (by simp [hx]))
    omega

theorem maxRow_eq {s : Sheet} {m : Nat} (h1 : 1 ≤ m) (h : ∀ x ∈ s, x.row ≤ m)
    (hx : ∃ x ∈ s, x.row = m) : maxRow s = m := by
  obtain ⟨x, hxs, hxm⟩ := hx
  have := le_maxRow hxs
  have := maxRow_le h1 h
  omega

theorem maxCol_eq {s : Sheet} {m : Nat} (h1 : 1 ≤ m) (h : ∀ x ∈ s, x.col ≤ m)
    (hx : ∃ x ∈ s, x.col = m) : maxCol s = m := by
  obtain ⟨x, hxs, hxm⟩ := hx
  have := le_maxCol hxs
  have := maxCol_le h1 h
  omega

/-- The cells of the finished sheet: header row on row 3 (columns 2..L+2),
serial numbers and data on rows 4..N+3, the title cell at (2,2) with the
rest of the title band empty, and the blank bottom margin row N+4. -/
def finalSheet (combined : List String) (data : List MergedRow)
    (title : String) : Sheet :=
  rowCells 3 2 (some (Value.vStr "S. No.") :: combined.map (fun h => some (Value.vStr h)))
    ++ serialCells 4 1 2
        (data.map (fun r => (List.range combined.length).map (fun j => r.getD j none)))
    ++ (⟨2, 2, some (Value.vStr title)⟩ :: bandCells 2 3 combined.length none)
    ++ bandCells (data.length + 4) 1 (combined.length + 2) none

theorem rowCells_getD_mem {vs : List (Option Value)} {r c0 j : Nat}
    (hj : j < vs.length) :
    (⟨r, c0 + j, vs.getD j none⟩ : Cell) ∈ rowCells r c0 vs := by
  induction vs generalizing c0 j with
  | nil => simp at hj
  | cons v vs ih =>
    cases j with
    | zero => simp [rowCells]
    | succ j =>
      have h := @ih (c0 + 1) j (by simpa using Nat.lt_of_succ_lt_succ hj)
      simp only [rowCells, List.mem_cons]
      right
      rw [show c0 + (j + 1) = c0 + 1 + j by omega]
      simpa using h

theorem serialCells_serial_mem {rows : List (List (Option Value))} {r0 : Nat}
    {s0 : Int} {c0 i : Nat} (hi : i < rows.length) :
    (⟨r0 + i, c0, some (Value.vInt (s0 + i))⟩ : Cell) ∈ serialCells r0 s0 c0 rows := by
  induction rows generalizing r0 s0 i with
  | nil => simp at hi
  | cons f rest ih =>
    cases i with
    | zero => simp [serialCells]
    | succ i =>
      have h := @ih (r0 + 1) (s0 + 1) i
        (by simpa using Nat.lt_of_succ_lt_succ hi)
      simp only [serialCells, List.mem_append, List.mem_cons]
      right
      rw [show r0 + (i + 1) = r0 + 1 + i by omega,
        show s0 + ((i : Nat) + 1 : Nat) = s0 + 1 + (i : Nat) by push_cast; ring]
      exact h

theorem bandCells_head_mem {r c0 k : Nat} {v : Option Value} (hk : 0 < k) :
    (⟨r, c0, v⟩ : Cell) ∈ bandCells r c0 k v := by
  cases k with
  | zero => omega
  | succ k => simp [bandCells]

theorem rowCells_replicate {k : Nat} {r c0 : Nat} :
    rowCells r c0 (List.replicate k (none : Option Value)) = bandCells r c0 k none := by
  induction k generalizing c0 with
  | zero => rfl
  | succ k ih => simp [List.replicate, rowCells, bandCells, ih]

theorem getWidth_setWidth_self {w : Widths} {c width : Nat} :
    getWidth (setWidth w c width) c = width := by
  simp [getWidth, setWidth]

theorem getWidth_setWidth_ne {w : Widths} {c c' width : Nat} (h : c' ≠ c) :
    getWidth (setWidth w c' width) c = getWidth w c := by
  simp [getWidth, setWidth, List.find?_cons, h]

theorem getWidth_fold_not_mem {cs : List Nat} {w0 : Widths} {f : Nat → Nat} {c : Nat}
    (hc : c ∉ cs) :
    getWidth (cs.foldl (fun w c' => setWidth w c' (f c')) w0) c = getWidth w0 c := by
  induction cs generalizing w0 with
  | nil => rfl
  | cons c' cs ih =>
    simp only [List.foldl_cons]
    rw [ih (by simp at hc; exact hc.2)]
    exact getWidth_setWidth_ne (by simp at hc; exact fun h => hc.1 h.symm)

theorem getWidth_fold_mem {cs : List Nat} {w0 : Widths} {f : Nat → Nat} {c : Nat}
    (hnd : cs.Nodup) (hc : c ∈ cs) :
    getWidth (cs.foldl (fun w c' => setWidth w c' (f c')) w0) c = f c := by
  induction cs generalizing w0 with
  | nil => simp at hc
  | cons c' cs ih =>
    simp only [List.foldl_cons]
    rcases List.mem_cons.1 hc with rfl | hmem
    · rw [getWidth_fold_not_mem (by exact (List.nodup_cons.1 hnd).1)]
      exact getWidth_setWidth_self
    · exact ih (List.nodup_cons.1 hnd).2 hmem

/-- Full characterisation of one builder run: the cells it produces, the
extent of the populated rectangle, the single title merge, and the widths
of the data columns. -/
theorem buildOutput_spec (combined : List String) (data : List MergedRow)
    (title : String) :
    (buildOutput combined data title).sheet = finalSheet combined data title ∧
    (buildOutput combined data title).usedLastRow = data.length + 4 ∧
    (buildOutput combined data title).usedLastCol = combined.length + 2 ∧
    (buildOutput combined data title).merges = [(2, 2, 2, combined.length + 2)] ∧
    (∀ c, 2 ≤ c → c ≤ combined.length + 2 →
      getWidth (buildOutput combined data title).widths c
        = colMaxLen (finalSheet combined data title) c (data.length + 4) + 2) := by
  have hHVlen : (some (Value.vStr "S. No.") ::
      combined.map (fun h => some (Value.vStr h))).length = combined.length + 1 := by
    simp
  have hFRlen : ∀ f ∈ data.map
      (fun r => (List.range combined.length).map (fun j => r.getD j none)),
      f.length ≤ combined.length := by
    intro f hf
    obtain ⟨r, _, rfl⟩ := List.mem_map.1 hf
    simp
  have hFRcount : (data.map
      (fun r => (List.range combined.length).map (fun j => r.getD j none))).length
      = data.length := by simp
  -- step 1: the header row
  have h1 : writeRow ([] : Sheet) 1 1 (some (Value.vStr "S. No.") ::
        combined.map (fun h => some (Value.vStr h)))
      = rowCells 1 1 (some (Value.vStr "S. No.") ::
        combined.map (fun h => some (Value.vStr h))) := by
    rw [writeRow_fresh (by intro x hx; simp at hx), List.nil_append]
  -- step 2: the data rows
  have h2 : writeDataRows (rowCells 1 1 (some (Value.vStr "S. No.") ::
        combined.map (fun h => some (Value.vStr h)))) 2
        (data.map (fun r => none ::
          (List.range combined.length).map (fun j => r.getD j none)))
      = rowCells 1 1 (some (Value.vStr "S. No.") ::
          combined.map (fun h => some (Value.vStr h)))
        ++ blockCells 2 (data.map (fun r => none ::
          (List.range combined.length).map (fun j => r.getD j none))) := by
    apply writeDataRows_fresh
    intro x hx
    have := mem_rowCells hx
    omega
  -- step 3: the serial numbers
  have h3 : (List.range' 2 (data.length + 1 - 1)).foldl
        (fun t i => setCell t i 1 (some (Value.vInt ((i : Int) - 1))))
        (rowCells 1 1 (some (Value.vStr "S. No.") ::
            combined.map (fun h => some (Value.vStr h)))
          ++ blockCells 2 (data.map (fun r => none ::
            (List.range combined.length).map (fun j => r.getD j none))))
      = rowCells 1 1 (some (Value.vStr "S. No.") ::
          combined.map (fun h => some (Value.vStr h)))
        ++ serialCells 2 1 1 (data.map
          (fun r => (List.range combined.length).map (fun j => r.getD j none))) := by
    rw [Nat.add_sub_cancel,
      show data.length = (data.map (fun r => none ::
        (List.range combined.length).map (fun j => r.getD j none))).length by simp]
    rw [serial_fold (by intro x hx; have := mem_rowCells hx; omega)
      (by intro f hf; obtain ⟨r, _, rfl⟩ := List.mem_map.1 hf; simp)]
    rw [List.map_map]
    have hmap : data.map (List.tail ∘ fun r => none ::
          (List.range combined.length).map (fun j => r.getD j none))
        = data.map (fun r => (List.range combined.length).map (fun j => r.getD j none)) := by
      apply List.map_congr_left
      intro r _
      simp
    rw [hmap]
    norm_num
  -- step 4: top margin and title rows
  have h4 : insertRowsOp (rowCells 1 1 (some (Value.vStr "S. No.") ::
          combined.map (fun h => some (Value.vStr h)))
        ++ serialCells 2 1 1 (data.map
          (fun r => (List.range combined.length).map (fun j => r.getD j none)))) 1 2
      = rowCells 3 1 (some (Value.vStr "S. No.") ::
          combined.map (fun h => some (Value.vStr h)))
        ++ serialCells 4 1 1 (data.map
          (fun r => (List.range combined.length).map (fun j => r.getD j none))) := by
    rw [insertRowsOp_shift_all (by
      intro x hx
      rcases List.mem_append.1 hx with hx | hx
      · have := mem_rowCells hx; omega
      · have := mem_serialCells hFRlen hx; omega)]
    rw [List.map_append, rowCells_shift_row, serialCells_shift_row]
  -- step 5: the title-band formatting pass materialises row 2
  have h5 : (List.range' 1 (combined.length + 1)).foldl
        (fun t c => getOrCreate t 2 c)
        (rowCells 3 1 (some (Value.vStr "S. No.") ::
            combined.map (fun h => some (Value.vStr h)))
          ++ serialCells 4 1 1 (data.map
            (fun r => (List.range combined.length).map (fun j => r.getD j none))))
      = rowCells 3 1 (some (Value.vStr "S. No.") ::
            combined.map (fun h => some (Value.vStr h)))
          ++ serialCells 4 1 1 (data.map
            (fun r => (List.range combined.length).map (fun j => r.getD j none)))
          ++ bandCells 2 1 (combined.length + 1) none := by
    rw [band_fold (by
      intro x hx hand
      rcases List.mem_append.1 hx with hx | hx
      · have := mem_rowCells hx; omega
      · have := mem_serialCells hFRlen hx; omega)]
  -- step 6: the left margin column
  have h6 : insertColsOp (rowCells 3 1 (some (Value.vStr "S. No.") ::
            combined.map (fun h => some (Value.vStr h)))
          ++ serialCells 4 1 1 (data.map
            (fun r => (List.range combined.length).map (fun j => r.getD j none)))
          ++ bandCells 2 1 (combined.length + 1) none) 1 1
      = rowCells 3 2 (some (Value.vStr "S. No.") ::
            combined.map (fun h => some (Value.vStr h)))
          ++ serialCells 4 1 2 (data.map
            (fun r => (List.range combined.length).map (fun j => r.getD j none)))
          ++ bandCells 2 2 (combined.length + 1) none := by
    rw [insertColsOp_shift_all (by
      intro x hx
      rcases List.mem_append.1 hx with hx | hx
      · rcases List.mem_append.1 hx with hx | hx
        · have := mem_rowCells hx; omega
        · have := mem_serialCells hFRlen hx; omega
      · have := mem_bandCells hx; omega)]
    rw [List.map_append, List.map_append, rowCells_shift_col, serialCells_shift_col,
      bandCells_shift_col]
  -- step 7: the right margin column moves no cells
  have h7 : insertColsOp (rowCells 3 2 (some (Value.vStr "S. No.") ::
            combined.map (fun h => some (Value.vStr h)))
          ++ serialCells 4 1 2 (data.map
            (fun r => (List.range combined.length).map (fun j => r.getD j none)))
          ++ bandCells 2 2 (combined.length + 1) none) (combined.length + 1 + 2) 1
      = rowCells 3 2 (some (Value.vStr "S. No.") ::
            combined.map (fun h => some (Value.vStr h)))
          ++ serialCells 4 1 2 (data.map
            (fun r => (List.range combined.length).map (fun j => r.getD j none)))
          ++ bandCells 2 2 (combined.length + 1) none := by
    apply insertColsOp_noop
    intro x hx
    rcases List.mem_append.1 hx with hx | hx
    · rcases List.mem_append.1 hx with hx | hx
      · have h := mem_rowCells hx
        rw [hHVlen] at h
        omega
      · have := mem_serialCells hFRlen hx; omega
    · have := mem_bandCells hx; omega
  -- extent of the sheet before the blank bottom row
  have hmr7 : maxRow (rowCells 3 2 (some (Value.vStr "S. No.") ::
            combined.map (fun h => some (Value.vStr h)))
          ++ serialCells 4 1 2 (data.map
            (fun r => (List.range combined.length).map (fun j => r.getD j none)))
          ++ bandCells 2 2 (combined.length + 1) none) = data.length + 3 := by
    apply maxRow_eq (by omega)
    · intro x hx
      rcases List.mem_append.1 hx with hx | hx
      · rcases List.mem_append.1 hx with hx | hx
        · have := mem_rowCells hx; omega
        · have h := mem_serialCells hFRlen hx
          rw [hFRcount] at h
          omega
      · have := mem_bandCells hx; omega
    · rcases Nat.eq_zero_or_pos data.length with hz | hp
      · refine ⟨⟨3, 2 + 0, (some (Value.vStr "S. No.") ::
          combined.map (fun h => some (Value.vStr h))).getD 0 none⟩, ?_,
          by show (3 : Nat) = data.length + 3; omega⟩
        exact List.mem_append.2 (Or.inl (List.mem_append.2 (Or.inl
          (rowCells_getD_mem (by rw [hHVlen]; omega)))))
      · refine ⟨⟨4 + (data.length - 1), 2,
          some (Value.vInt ((1 : Int) + (data.length - 1 : Nat)))⟩, ?_,
          by show 4 + (data.length - 1) = data.length + 3; omega⟩
        exact List.mem_append.2 (Or.inl (List.mem_append.2 (Or.inr
          (serialCells_serial_mem (by rw [hFRcount]; omega)))))
  have hmc7 : maxCol (rowCells 3 2 (some (Value.vStr "S. No.") ::
            combined.map (fun h => some (Value.vStr h)))
          ++ serialCells 4 1 2 (data.map
            (fun r => (List.range combined.length).map (fun j => r.getD j none)))
          ++ bandCells 2 2 (combined.length + 1) none) = combined.length + 2 := by
    apply maxCol_eq (by omega)
    · intro x hx
      rcases List.mem_append.1 hx with hx | hx
      · rcases List.mem_append.1 hx with hx | hx
        · have h := mem_rowCells hx
          rw [hHVlen] at h
          omega
        · have := mem_serialCells hFRlen hx; omega
      · have := mem_bandCells hx; omega
    · refine ⟨⟨3, 2 + combined.length, (some (Value.vStr "S. No.") ::
        combined.map (fun h => some (Value.vStr h))).getD combined.length none⟩, ?_,
        by show 2 + combined.length = combined.length + 2; omega⟩
      exact List.mem_append.2 (Or.inl (List.mem_append.2 (Or.inl
        (rowCells_getD_mem (by rw [hHVlen]; omega)))))
  -- step 8: the blank bottom margin row
  have h8 : writeRow (rowCells 3 2 (some (Value.vStr "S. No.") ::
            combined.map (fun h => some (Value.vStr h)))
          ++ serialCells 4 1 2 (data.map
            (fun r => (List.range combined.length).map (fun j => r.getD j none)))
          ++ bandCells 2 2 (combined.length + 1) none)
        (data.length + 3 + 1) 1 (List.replicate (combined.length + 2) none)
      = rowCells 3 2 (some (Value.vStr "S. No.") ::
            combined.map (fun h => some (Value.vStr h)))
          ++ serialCells 4 1 2 (data.map
            (fun r => (List.range combined.length).map (fun j => r.getD j none)))
          ++ bandCells 2 2 (combined.length + 1) none
          ++ bandCells (data.length + 4) 1 (combined.length + 2) none := by
    rw [writeRow_fresh (by
      intro x hx hand
      rcases List.mem_append.1 hx with hx | hx
      · rcases List.mem_append.1 hx with hx | hx
        · have := mem_rowCells hx; omega
        · have h := mem_serialCells hFRlen hx
          rw [hFRcount] at h
          omega
      · have := mem_bandCells hx; omega)]
    rw [rowCells_replicate]
  -- the populated rectangle
  have hulr : maxRow (rowCells 3 2 (some (Value.vStr "S. No.") ::
            combined.map (fun h => some (Value.vStr h)))
          ++ serialCells 4 1 2 (data.map
            (fun r => (List.range combined.length).map (fun j => r.getD j none)))
          ++ bandCells 2 2 (combined.length + 1) none
          ++ bandCells (data.length + 4) 1 (combined.length + 2) none)
      = data.length + 4 := by
    apply maxRow_eq (by omega)
    · intro x hx
      rcases List.mem_append.1 hx with hx | hx
      · rcases List.mem_append.1 hx with hx | hx
        · rcases List.mem_append.1 hx with hx | hx
          · have := mem_rowCells hx; omega
          · have h := mem_serialCells hFRlen hx
            rw [hFRcount] at h
            omega
        · have := mem_bandCells hx; omega
      · have := mem_bandCells hx; omega
    · exact ⟨⟨data.length + 4, 1, none⟩,
        List.mem_append.2 (Or.inr (bandCells_head_mem (by omega))), rfl⟩
  have hulc : maxCol (rowCells 3 2 (some (Value.vStr "S. No.") ::
            combined.map (fun h => some (Value.vStr h)))
          ++ serialCells 4 1 2 (data.map
            (fun r => (List.range combined.length).map (fun j => r.getD j none)))
          ++ bandCells 2 2 (combined.length + 1) none
          ++ bandCells (data.length + 4) 1 (combined.length + 2) none)
      = combined.length + 2 := by
    apply maxCol_eq (by omega)
    · intro x hx
      rcases List.mem_append.1 hx with hx | hx
      · rcases List.mem_append.1 hx with hx | hx
        · rcases List.mem_append.1 hx with hx | hx
          · have h := mem_rowCells hx
            rw [hHVlen] at h
            omega
          · have := mem_serialCells hFRlen hx; omega
        · have := mem_bandCells hx; omega
      · have := mem_bandCells hx; omega
    · refine ⟨⟨3, 2 + combined.length, (some (Value.vStr "S. No.") ::
        combined.map (fun h => some (Value.vStr h))).getD combined.length none⟩, ?_,
        by show 2 + combined.length = combined.length + 2; omega⟩
      exact List.mem_append.2 (Or.inl (List.mem_append.2 (Or.inl (List.mem_append.2 (Or.inl
        (rowCells_getD_mem (by rw [hHVlen]; omega)))))))
  -- step 9: the title value lands in the title-band cell (2,2)
  have h9 : setCell (rowCells 3 2 (some (Value.vStr "S. No.") ::
            combined.map (fun h => some (Value.vStr h)))
          ++ serialCells 4 1 2 (data.map
            (fun r => (List.range combined.length).map (fun j => r.getD j none)))
          ++ bandCells 2 2 (combined.length + 1) none
          ++ bandCells (data.length + 4) 1 (combined.length + 2) none) 2 2
        (some (Value.vStr title))
      = finalSheet combined data title := by
    have hb : bandCells 2 2 (combined.length + 1) (none : Option Value)
        = ⟨2, 2, none⟩ :: bandCells 2 3 combined.length none := rfl
    rw [hb]
    rw [show rowCells 3 2 (some (Value.vStr "S. No.") ::
            combined.map (fun h => some (Value.vStr h)))
          ++ serialCells 4 1 2 (data.map
            (fun r => (List.range combined.length).map (fun j => r.getD j none)))
          ++ ((⟨2, 2, none⟩ : Cell) :: bandCells 2 3 combined.length none)
          ++ bandCells (data.length + 4) 1 (combined.length + 2) none
        = (rowCells 3 2 (some (Value.vStr "S. No.") ::
            combined.map (fun h => some (Value.vStr h)))
          ++ serialCells 4 1 2 (data.map
            (fun r => (List.range combined.length).map (fun j => r.getD j none))))
          ++ ((⟨2, 2, none⟩ : Cell) :: (bandCells 2 3 combined.length none
            ++ bandCells (data.length + 4) 1 (combined.length + 2) none)) by
      simp [List.append_assoc]]
    rw [setCell_present_split (by
        intro x hx hand
        rcases List.mem_append.1 hx with hx | hx
        · have := mem_rowCells hx; omega
        · have := mem_serialCells hFRlen hx; omega)
      (by
        intro x hx hand
        rcases List.mem_append.1 hx with hx | hx
        · have := mem_bandCells hx; omega
        · have := mem_bandCells hx; omega)]
    simp [finalSheet, List.append_assoc]
  -- extent of the finished sheet (for the vacuous delete steps)
  have hmrF : maxRow (finalSheet combined data title) = data.length + 4 := by
    apply maxRow_eq (by omega)
    · intro x hx
      simp only [finalSheet, List.mem_append, List.mem_cons] at hx
      rcases hx with ((hx | hx) | rfl | hx) | hx
      · have := mem_rowCells hx; omega
      · have h := mem_serialCells hFRlen hx
        rw [hFRcount] at h
        omega
      · simp
      · have := mem_bandCells hx; omega
      · have := mem_bandCells hx; omega
    · refine ⟨⟨data.length + 4, 1, none⟩, ?_, rfl⟩
      simp only [finalSheet, List.mem_append]
      exact Or.inr (bandCells_head_mem (by omega))
  have hmcF : maxCol (finalSheet combined data title) = combined.length + 2 := by
    apply maxCol_eq (by omega)
    · intro x hx
      simp only [finalSheet, List.mem_append, List.mem_cons] at hx
      rcases hx with ((hx | hx) | rfl | hx) | hx
      · have h := mem_rowCells hx
        rw [hHVlen] at h
        omega
      · have := mem_serialCells hFRlen hx; omega
      · show (2 : Nat) ≤ combined.length + 2
        omega
      · have := mem_bandCells hx; omega
      · have := mem_bandCells hx; omega
    · refine ⟨⟨3, 2 + combined.length, (some (Value.vStr "S. No.") ::
        combined.map (fun h => some (Value.vStr h))).getD combined.length none⟩, ?_,
        by show 2 + combined.length = combined.length + 2; omega⟩
      simp only [finalSheet, List.mem_append]
      exact Or.inl (Or.inl (Or.inl (rowCells_getD_mem (by rw [hHVlen]; omega))))
  -- assemble the whole builder run
  have hbig : buildOutput combined data title = ⟨finalSheet combined data title,
      [(2, 2, 2, combined.length + 2)],
      (List.range' 2 (combined.length + 2 - 1)).foldl
        (fun w c => setWidth w c
          (colMaxLen (finalSheet combined data title) c (data.length + 4) + 2))
        (setWidth (setWidth ((List.range' 1 (combined.length + 1)).foldl
            (fun w c => setWidth w c 20) []) 1 2) (combined.length + 1 + 2) 2),
      data.length + 4, combined.length + 2⟩ := by
    simp only [buildOutput]
    rw [h1, h2, h3, h4, h5, h6, h7, hmr7, hmc7, h8, hulr, hulc, h9, hmrF,
      if_neg (lt_irrefl _), hmcF, if_neg (lt_irrefl _)]
  refine ⟨by rw [hbig], by rw [hbig], by rw [hbig], by rw [hbig], ?_⟩
  intro c hc1 hc2
  rw [hbig]
  show getWidth ((List.range' 2 (combined.length + 2 - 1)).foldl
      (fun w c => setWidth w c
        (colMaxLen (finalSheet combined data title) c (data.length + 4) + 2))
      (setWidth (setWidth ((List.range' 1 (combined.length + 1)).foldl
          (fun w c => setWidth w c 20) []) 1 2) (combined.length + 1 + 2) 2)) c = _
  rw [show combined.length + 2 - 1 = combined.length + 1 by omega]
  exact getWidth_fold_mem (List.nodup_range' _ _)
    (by rw [List.mem_range'_1]; omega)

theorem getCell_cons_hit {x : Cell} {t : Sheet} {r c : Nat}
    (h : x.row = r ∧ x.col = c) : getCell (x :: t) r c = x.val := by
  have hk : keyAt x r c = true := keyAt_eq_true.2 h
  simp [getCell, List.find?_cons, hk]

theorem getCell_cons_miss {x : Cell} {t : Sheet} {r c : Nat}
    (h : ¬(x.row = r ∧ x.col = c)) : getCell (x :: t) r c = getCell t r c := by
  have hk : keyAt x r c = false := by
    rw [Bool.eq_false_iff]
    simpa [keyAt_eq_true] using h
  simp [getCell, List.find?_cons, hk]

theorem getCell_append_skip {A B : Sheet} {r c : Nat}
    (h : ∀ x ∈ A, ¬(x.row = r ∧ x.col = c)) :
    getCell (A ++ B) r c = getCell B r c := by
  have hA : A.find? (fun x => keyAt x r c) = none := by
    rw [List.find?_eq_none]
    intro x hx
    simp only [keyAt_eq_true]
    exact h x hx
  simp [getCell, List.find?_append, hA]

theorem getCell_append_found {A B : Sheet} {r c : Nat} {v : Option Value}
    (h : getCell A r c = v) (hmem : ∃ x ∈ A, x.row = r ∧ x.col = c) :
    getCell (A ++ B) r c = v := by
  unfold getCell at h ⊢
  rw [List.find?_append]
  cases heq : A.find? (fun x => keyAt x r c) with
  | none =>
    exfalso
    obtain ⟨x, hx, hk⟩ := hmem
    exact (List.find?_eq_none.1 heq x hx) (keyAt_eq_true.2 hk)
  | some y =>
    rw [heq] at h
    simpa using h

theorem getCell_rowCells {vs : List (Option Value)} {r c0 j : Nat}
    (hj : j < vs.length) :
    getCell (rowCells r c0 vs) r (c0 + j) = vs.getD j none := by
  induction vs generalizing c0 j with
  | nil => simp at hj
  | cons v vs ih =>
    cases j with
    | zero => exact getCell_cons_hit ⟨rfl, rfl⟩
    | succ j =>
      have hmiss : ¬((⟨r, c0, v⟩ : Cell).row = r ∧ (⟨r, c0, v⟩ : Cell).col = c0 + (j + 1)) := by
        simp only
        omega
      rw [rowCells, getCell_cons_miss hmiss]
      have h := @ih (c0 + 1) j (by simpa using Nat.lt_of_succ_lt_succ hj)
      rw [show c0 + (j + 1) = c0 + 1 + j by omega]
      simpa using h

theorem rowCells_exists_key {vs : List (Option Value)} {r c0 j : Nat}
    (hj : j < vs.length) :
    ∃ x ∈ rowCells r c0 vs, x.row = r ∧ x.col = c0 + j :=
  ⟨⟨r, c0 + j, vs.getD j none⟩, rowCells_getD_mem hj, rfl, rfl⟩

theorem getCell_serialCells_serial {rows : List (List (Option Value))} {r0 : Nat}
    {s0 : Int} {c0 i : Nat} (hi : i < rows.length) :
    getCell (serialCells r0 s0 c0 rows) (r0 + i) c0
      = some (Value.vInt (s0 + i)) := by
  induction rows generalizing r0 s0 i with
  | nil => simp at hi
  | cons f rest ih =>
    cases i with
    | zero =>
      have hhit : getCell ((⟨r0, c0, some (Value.vInt s0)⟩ : Cell) ::
          (rowCells r0 (c0 + 1) f ++ serialCells (r0 + 1) (s0 + 1) c0 rest))
          (r0 + 0) c0 = some (Value.vInt s0) := getCell_cons_hit ⟨rfl, rfl⟩
      rw [serialCells, List.cons_append, hhit]
      norm_num
    | succ i =>
      rw [serialCells, getCell_append_skip (by
        intro x hx hand
        rcases List.mem_cons.1 hx with rfl | hx
        · simp only at hand
          omega
        · have := mem_rowCells hx
          omega)]
      have h := @ih (r0 + 1) (s0 + 1) i
        (by simpa using Nat.lt_of_succ_lt_succ hi)
      rw [show r0 + (i + 1) = r0 + 1 + i by omega, h]
      congr 1
      congr 1
      push_cast
      ring

theorem getCell_serialCells_field {rows : List (List (Option Value))} {r0 : Nat}
    {s0 : Int} {c0 i j : Nat} (hi : i < rows.length)
    (hj : j < (rows.getD i []).length) :
    getCell (serialCells r0 s0 c0 rows) (r0 + i) (c0 + 1 + j)
      = (rows.getD i []).getD j none := by
  induction rows generalizing r0 s0 i with
  | nil => simp at hi
  | cons f rest ih =>
    cases i with
    | zero =>
      simp only [List.getD_cons_zero] at hj ⊢
      have hmiss : ¬((⟨r0, c0, some (Value.vInt s0)⟩ : Cell).row = r0 + 0 ∧
          (⟨r0, c0, some (Value.vInt s0)⟩ : Cell).col = c0 + 1 + j) := by
        simp only
        omega
      rw [serialCells, List.cons_append, getCell_cons_miss hmiss]
      exact getCell_append_found (getCell_rowCells hj) (rowCells_exists_key hj)
    | succ i =>
      rw [serialCells, getCell_append_skip (by
        intro x hx hand
        rcases List.mem_cons.1 hx with rfl | hx
        · simp only at hand
          omega
        · have := mem_rowCells hx
          omega)]
      simp only [List.getD_cons_succ] at hj ⊢
      have h := @ih (r0 + 1) (s0 + 1) i
        (by simpa using Nat.lt_of_succ_lt_succ hi) hj
      rw [show r0 + (i + 1) = r0 + 1 + i by omega, h]

theorem truthyLen_falsy {v : Option Value} (h : pyFalsy v = true) : truthyLen v = 0 := by
  cases v with
  | none => rfl
  | some w => simp [truthyLen, h]

theorem colMaxLen_cons {x : Cell} {t : Sheet} {c m : Nat} :
    colMaxLen (x :: t) c m = if x.col = c ∧ x.row ≤ m
      then max (truthyLen x.val) (colMaxLen t c m)
      else colMaxLen t c m := by
  simp only [colMaxLen, List.foldr_cons]
  by_cases h1 : x.col = c
  · by_cases h2 : x.row ≤ m
    · by_cases h3 : pyFalsy x.val
      · simp [h1, h2, h3, truthyLen_falsy h3]
      · simp [h1, h2, h3]
    · simp [h1, h2]
  · simp [h1]

theorem colMaxLen_nil {c m : Nat} : colMaxLen [] c m = 0 := rfl

theorem colMaxLen_append {A B : Sheet} {c m : Nat} :
    colMaxLen (A ++ B) c m = max (colMaxLen A c m) (colMaxLen B c m) := by
  induction A with
  | nil =>
    rw [List.nil_append, colMaxLen_nil]
    omega
  | cons x t ih =>
    rw [List.cons_append, colMaxLen_cons, colMaxLen_cons, ih]
    by_cases h : x.col = c ∧ x.row ≤ m
    · rw [if_pos h, if_pos h]
      omega
    · rw [if_neg h, if_neg h]

theorem colMaxLen_of_absent {s : Sheet} {c m : Nat}
    (h : ∀ x ∈ s, ¬(x.col = c ∧ x.row ≤ m)) : colMaxLen s c m = 0 := by
  induction s with
  | nil => rfl
  | cons x t ih =>
    rw [colMaxLen_cons, if_neg (h x (by simp))]
    exact ih (fun y hy => h y (by simp [hy]))

theorem colMaxLen_bandCells_none {k r c0 c m : Nat} :
    colMaxLen (bandCells r c0 k none) c m = 0 := by
  induction k generalizing c0 with
  | zero => rfl
  | succ k ih =>
    rw [bandCells, colMaxLen_cons]
    by_cases h : (⟨r, c0, none⟩ : Cell).col = c ∧ (⟨r, c0, none⟩ : Cell).row ≤ m
    · rw [if_pos h, ih]
      rfl
    · rw [if_neg h, ih]

theorem colMaxLen_rowCells_in {vs : List (Option Value)} {r c0 c m : Nat}
    (hr : r ≤ m) (hc : c0 ≤ c) (hcu : c < c0 + vs.length) :
    colMaxLen (rowCells r c0 vs) c m = truthyLen (vs.getD (c - c0) none) := by
  induction vs generalizing c0 with
  | nil => simp only [List.length_nil] at hcu; omega
  | cons v vs ih =>
    rw [rowCells, colMaxLen_cons]
    by_cases h : c0 = c
    · subst h
      rw [if_pos ⟨rfl, hr⟩]
      rw [colMaxLen_of_absent (by
        intro x hx hand
        have := mem_rowCells hx
        omega)]
      simp
    · rw [if_neg (by simp only; omega)]
      rw [ih (by omega) (by simp only [List.length_cons] at hcu; omega)]
      rw [show c - c0 = (c - (c0 + 1)) + 1 by omega]
      simp

theorem colMaxLen_rowCells_getD {vs : List (Option Value)} {r c0 j m : Nat}
    (hr : r ≤ m) :
    colMaxLen (rowCells r c0 vs) (c0 + j) m = truthyLen (vs.getD j none) := by
  by_cases hj : j < vs.length
  · rw [colMaxLen_rowCells_in hr (by omega) (by omega)]
    rw [show c0 + j - c0 = j by omega]
  · rw [colMaxLen_of_absent (by
      intro x hx hand
      have := mem_rowCells hx
      omega)]
    rw [List.getD_eq_default _ _ (by omega)]
    rfl

theorem foldr_max_congr {α : Type} {f g : α → Nat} {l : List α} (h : ∀ i, f i = g i) :
    l.foldr (fun i acc => max (f i) acc) 0
      = l.foldr (fun i acc => max (g i) acc) 0 := by
  induction l with
  | nil => rfl
  | cons a l ih => simp [h, ih]

theorem colMaxLen_serialCells_at {rows : List (List (Option Value))} {r0 : Nat}
    {s0 : Int} {c0 m : Nat} (hm : r0 + rows.length ≤ m + 1) :
    colMaxLen (serialCells r0 s0 c0 rows) c0 m
      = (List.range rows.length).foldr
          (fun (i : Nat) (acc : Nat) =>
            max (truthyLen (some (Value.vInt (s0 + (i : Int))))) acc) 0 := by
  induction rows generalizing r0 s0 with
  | nil => rfl
  | cons f rest ih =>
    rw [serialCells, List.cons_append, colMaxLen_cons,
      if_pos ⟨rfl, by
        show r0 ≤ m
        simp only [List.length_cons] at hm
        omega⟩]
    rw [colMaxLen_append]
    rw [colMaxLen_of_absent (by
      intro x hx hand
      have := mem_rowCells hx
      omega)]
    rw [ih (by simp only [List.length_cons] at hm; omega)]
    rw [List.length_cons, List.range_succ_eq_map, List.foldr_cons, List.foldr_map]
    have hcongr : ∀ i : Nat,
        truthyLen (some (Value.vInt (s0 + 1 + (i : Int))))
          = truthyLen (some (Value.vInt (s0 + (Nat.succ i : Nat)))) := by
      intro i
      congr 2
      push_cast
      ring
    rw [foldr_max_congr hcongr]
    simp only [Nat.zero_max]
    norm_num

theorem colMaxLen_serialCells_field {rows : List (List (Option Value))} {r0 : Nat}
    {s0 : Int} {c0 j m : Nat} (hm : r0 + rows.length ≤ m + 1) :
    colMaxLen (serialCells r0 s0 c0 rows) (c0 + 1 + j) m
      = rows.foldr (fun f acc => max (truthyLen (f.getD j none)) acc) 0 := by
  induction rows generalizing r0 s0 with
  | nil => rfl
  | cons f rest ih =>
    rw [serialCells, List.cons_append, colMaxLen_cons,
      if_neg (by simp only; omega)]
    rw [colMaxLen_append]
    rw [colMaxLen_rowCells_getD (by simp only [List.length_cons] at hm; omega)]
    rw [ih (by simp only [List.length_cons] at hm; omega)]
    rfl

/-! ### Stability of the ordering pass, and pipeline facts -/

theorem strLe_refl (a : String) : strLe a a = true := charsLe_refl a.data

theorem filter_orderedInsert (i : Nat) (kval : String) (a : MergedRow)
    (l : List MergedRow) :
    (List.orderedInsert (rowLe i) a l).filter
        (fun x => sortKey (x.getD i none) == kval)
      = if sortKey (a.getD i none) == kval
          then a :: l.filter (fun x => sortKey (x.getD i none) == kval)
          else l.filter (fun x => sortKey (x.getD i none) == kval) := by
  induction l with
  | nil =>
    rw [List.orderedInsert_nil, List.filter_cons, List.filter_nil]
  | cons b t ih =>
    rw [List.orderedInsert]
    by_cases hab : rowLe i a b
    · rw [if_pos hab, List.filter_cons, List.filter_cons]
    · rw [if_neg hab, List.filter_cons, List.filter_cons, ih]
      by_cases hpa : sortKey (a.getD i none) == kval
      · have hba : sortKey (b.getD i none) ≠ sortKey (a.getD i none) := by
          intro he
          apply hab
          unfold rowLe strLe
          rw [he]
          exact charsLe_refl _
        have hpb : (sortKey (b.getD i none) == kval) = false := by
          rw [beq_eq_false_iff_ne]
          intro he
          exact hba (he.trans (eq_of_beq hpa).symm)
        simp only [hpb, Bool.false_eq_true, if_false, if_pos hpa]
      · simp only [if_neg hpa]

theorem filter_insertionSort (i : Nat) (kval : String) (l : List MergedRow) :
    (List.insertionSort (rowLe i) l).filter
        (fun x => sortKey (x.getD i none) == kval)
      = l.filter (fun x => sortKey (x.getD i none) == kval) := by
  induction l with
  | nil => rfl
  | cons a t ih =>
    rw [List.insertionSort, filter_orderedInsert, ih, List.filter_cons]

theorem mergeAll_length (files : List SourceTable) (combined : List String) :
    (mergeAll files combined).length = (files.map (fun f => f.rows.length)).sum := by
  induction files with
  | nil => rfl
  | cons f fs ih =>
    simp only [mergeAll, List.flatMap_cons, List.length_append, List.length_map,
      List.map_cons, List.sum_cons] at ih ⊢
    omega

theorem rowToMerged_length (hs : List (Option String)) (combined : List String)
    (row : List (Option Value)) :
    (rowToMerged hs combined row).length = combined.length := by
  simp [rowToMerged]

theorem transformRow_length (combined : List String) (row : MergedRow)
    (h : row.length = combined.length) :
    (transformRow combined row).length = combined.length := by
  simp [transformRow, h]

theorem pipelineRows_length_eq (files : List SourceTable) (combined : List String) :
    ∀ row ∈ pipelineRows files combined, row.length = combined.length := by
  intro row hrow
  unfold pipelineRows at hrow
  have hperm : ∀ r ∈ transformAll combined (mergeAll files combined),
      r.length = combined.length := by
    intro r hr
    obtain ⟨q, hq, rfl⟩ := List.mem_map.1 hr
    obtain ⟨f, _, hq2⟩ := List.mem_flatMap.1 hq
    obtain ⟨w, _, rfl⟩ := List.mem_map.1 hq2
    exact transformRow_length _ _ (rowToMerged_length _ _ _)
  cases hni : nameIdx combined with
  | none =>
    rw [orderRows, hni] at hrow
    exact hperm row hrow
  | some i =>
    rw [orderRows, hni] at hrow
    exact hperm row ((List.perm_insertionSort (rowLe i) _).subset hrow)

/-! ### Specification-side width functions (for the amended C9) -/

/-- The content maximum of one data column: the header's rendered length
against the rendered lengths of the truthy cell values. -/
def colContentMax (h : String) (cells : List (Option Value)) : Nat :=
  max (truthyLen (some (Value.vStr h)))
    (cells.foldr (fun v acc => max (truthyLen v) acc) 0)

/-- The content maximum of the serial column: the `"S. No."` label, the
title (the merged title cell lives in this column), and the serial numbers
`1..n`. -/
def serialColContentMax (title : String) (n : Nat) : Nat :=
  max (truthyLen (some (Value.vStr "S. No.")))
    (max ((List.range n).foldr
        (fun (i : Nat) (acc : Nat) =>
          max (truthyLen (some (Value.vInt (1 + (i : Int))))) acc) 0)
      (truthyLen (some (Value.vStr title))))

theorem serialCells_field_mem {rows : List (List (Option Value))} {r0 : Nat}
    {s0 : Int} {c0 i j : Nat} (hi : i < rows.length)
    (hj : j < (rows.getD i []).length) :
    ∃ x ∈ serialCells r0 s0 c0 rows, x.row = r0 + i ∧ x.col = c0 + 1 + j := by
  induction rows generalizing r0 s0 i with
  | nil => simp at hi
  | cons f rest ih =>
    cases i with
    | zero =>
      simp only [List.getD_cons_zero] at hj
      obtain ⟨x, hxm, hxk⟩ := @rowCells_exists_key _ r0 (c0 + 1) _ hj
      refine ⟨x, ?_, by omega, hxk.2⟩
      rw [serialCells]
      exact List.mem_append.2 (Or.inl (List.mem_cons_of_mem _ hxm))
    | succ i =>
      simp only [List.getD_cons_succ] at hj
      obtain ⟨x, hxm, hxk⟩ := @ih (r0 + 1) (s0 + 1) _
        (by simpa using Nat.lt_of_succ_lt_succ hi) hj
      refine ⟨x, ?_, by omega, hxk.2⟩
      rw [serialCells]
      exact List.mem_append.2 (Or.inr hxm)

theorem finalSheet_header_cell (combined : List String) (data : List MergedRow)
    (title : String) {j : Nat} (hj : j < combined.length + 1) :
    getCell (finalSheet combined data title) 3 (2 + j)
      = (some (Value.vStr "S. No.") ::
          combined.map (fun h => some (Value.vStr h))).getD j none := by
  have hjj : j < (some (Value.vStr "S. No.") ::
      combined.map (fun h => some (Value.vStr h))).length := by simpa using hj
  obtain ⟨x, hxm, hxk⟩ := @rowCells_exists_key _ 3 2 _ hjj
  unfold finalSheet
  exact getCell_append_found
    (getCell_append_found
      (getCell_append_found (getCell_rowCells hjj) ⟨x, hxm, hxk⟩)
      ⟨x, List.mem_append.2 (Or.inl hxm), hxk⟩)
    ⟨x, List.mem_append.2 (Or.inl (List.mem_append.2 (Or.inl hxm))), hxk⟩

theorem finalSheet_serial_cell (combined : List String) (data : List MergedRow)
    (title : String) {i : Nat} (hi : i < data.length) :
    getCell (finalSheet combined data title) (4 + i) 2
      = some (Value.vInt (1 + (i : Int))) := by
  have hiF : i < (data.map (fun r => (List.range combined.length).map
      (fun j => r.getD j none))).length := by simpa using hi
  have hval := @getCell_serialCells_serial _ 4 1 2 _ hiF
  have hmem := @serialCells_serial_mem _ 4 1 2 _ hiF
  unfold finalSheet
  refine getCell_append_found (getCell_append_found ?_ ?_) ?_
  · rw [getCell_append_skip (by
      intro x hx hand
      have := mem_rowCells hx
      omega)]
    exact hval
  · exact ⟨_, List.mem_append.2 (Or.inr hmem), rfl, rfl⟩
  · exact ⟨_, List.mem_append.2 (Or.inl (List.mem_append.2 (Or.inr hmem))), rfl, rfl⟩

theorem finalSheet_data_cell (combined : List String) (data : List MergedRow)
    (title : String) {i j : Nat} (hi : i < data.length) (hj : j < combined.length) :
    getCell (finalSheet combined data title) (4 + i) (3 + j)
      = (data.getD i []).getD j none := by
  have hFR : (data.map (fun r => (List.range combined.length).map
      (fun q => r.getD q none))).getD i []
      = (List.range combined.length).map (fun q => (data.getD i []).getD q none) := by
    rw [List.getD_eq_getElem?_getD, List.getElem?_map, List.getElem?_eq_getElem hi,
      List.getD_eq_getElem?_getD, List.getElem?_eq_getElem hi]
    rfl
  have hiF : i < (data.map (fun r => (List.range combined.length).map
      (fun q => r.getD q none))).length := by simpa using hi
  have hjF : j < ((data.map (fun r => (List.range combined.length).map
      (fun q => r.getD q none))).getD i []).length := by
    rw [hFR]
    simpa using hj
  have hval := @getCell_serialCells_field _ 4 1 2 _ _ hiF hjF
  have hgd : (((data.map (fun r => (List.range combined.length).map
      (fun q => r.getD q none))).getD i []).getD j none)
      = (data.getD i []).getD j none := by
    rw [hFR, List.getD_eq_getElem?_getD, List.getElem?_map, List.getElem?_range hj]
    rfl
  rw [hgd] at hval
  have hmem := @serialCells_field_mem _ 4 1 2 _ _ hiF hjF
  obtain ⟨x, hxm, hxk⟩ := hmem
  unfold finalSheet
  refine getCell_append_found (getCell_append_found ?_ ?_) ?_
  · rw [getCell_append_skip (by
      intro y hy hand
      have := mem_rowCells hy
      omega)]
    exact hval
  · exact ⟨x, List.mem_append.2 (Or.inr hxm), hxk.1, hxk.2⟩
  · exact ⟨x, List.mem_append.2 (Or.inl (List.mem_append.2 (Or.inr hxm))), hxk.1, hxk.2⟩

theorem colMaxLen_finalSheet_data (combined : List String) (data : List MergedRow)
    (title : String) {j : Nat} (hj : j < combined.length) :
    colMaxLen (finalSheet combined data title) (3 + j) (data.length + 4)
      = colContentMax (combined.getD j "") (data.map (fun r => r.getD j none)) := by
  have hH : colMaxLen (rowCells 3 2 (some (Value.vStr "S. No.") ::
        combined.map (fun h => some (Value.vStr h)))) (3 + j) (data.length + 4)
      = truthyLen (some (Value.vStr (combined.getD j ""))) := by
    have h1 := @colMaxLen_rowCells_getD (some (Value.vStr "S. No.") ::
        combined.map (fun h => some (Value.vStr h))) 3 2
        (1 + j) (data.length + 4) (by omega)
    rw [show (2 : Nat) + (1 + j) = 3 + j by omega] at h1
    rw [h1, show (1 : Nat) + j = j + 1 by omega, List.getD_cons_succ]
    congr 1
    rw [List.getD_eq_getElem?_getD, List.getElem?_map, List.getElem?_eq_getElem hj,
      List.getD_eq_getElem?_getD, List.getElem?_eq_getElem hj]
    rfl
  have hS : colMaxLen (serialCells 4 1 2 (data.map
        (fun r => (List.range combined.length).map (fun q => r.getD q none))))
        (3 + j) (data.length + 4)
      = data.foldr (fun r acc => max (truthyLen (r.getD j none)) acc) 0 := by
    have h2 : colMaxLen (serialCells 4 1 2 (data.map
        (fun r => (List.range combined.length).map (fun q => r.getD q none))))
        (2 + 1 + j) (data.length + 4)
        = (data.map (fun r => (List.range combined.length).map
            (fun q => r.getD q none))).foldr
            (fun f acc => max (truthyLen (f.getD j none)) acc) 0 :=
      colMaxLen_serialCells_field (by simp only [List.length_map]; omega)
    rw [show (2 : Nat) + 1 + j = 3 + j by omega] at h2
    rw [h2, List.foldr_map]
    apply foldr_max_congr
    intro r
    congr 1
    rw [List.getD_eq_getElem?_getD, List.getElem?_map, List.getElem?_range hj]
    rfl
  have hT : colMaxLen ((⟨2, 2, some (Value.vStr title)⟩ : Cell) ::
        bandCells 2 3 combined.length none) (3 + j) (data.length + 4) = 0 := by
    rw [colMaxLen_cons, if_neg (by simp only; omega), colMaxLen_bandCells_none]
  have hB : colMaxLen (bandCells (data.length + 4) 1 (combined.length + 2) none)
        (3 + j) (data.length + 4) = 0 := colMaxLen_bandCells_none
  unfold finalSheet
  rw [colMaxLen_append, colMaxLen_append, colMaxLen_append, hH, hS, hT, hB]
  unfold colContentMax
  simp only [List.foldr_map]
  omega

theorem colMaxLen_finalSheet_serial (combined : List String) (data : List MergedRow)
    (title : String) :
    colMaxLen (finalSheet combined data title) 2 (data.length + 4)
      = serialColContentMax title data.length := by
  have hH : colMaxLen (rowCells 3 2 (some (Value.vStr "S. No.") ::
        combined.map (fun h => some (Value.vStr h)))) 2 (data.length + 4)
      = truthyLen (some (Value.vStr "S. No.")) := by
    have h1 := @colMaxLen_rowCells_getD (some (Value.vStr "S. No.") ::
        combined.map (fun h => some (Value.vStr h))) 3 2
        0 (data.length + 4) (by omega)
    rw [show (2 : Nat) + 0 = 2 by omega] at h1
    rw [h1, List.getD_cons_zero]
  have hS : colMaxLen (serialCells 4 1 2 (data.map
        (fun r => (List.range combined.length).map (fun q => r.getD q none))))
        2 (data.length + 4)
      = (List.range data.length).foldr
          (fun (i : Nat) (acc : Nat) =>
            max (truthyLen (some (Value.vInt (1 + (i : Int))))) acc) 0 := by
    have h2 := @colMaxLen_serialCells_at (data.map
        (fun r => (List.range combined.length).map (fun q => r.getD q none)))
        4 1 2 (data.length + 4)
        (by simp only [List.length_map]; omega)
    rw [h2, List.length_map]
  have hT : colMaxLen ((⟨2, 2, some (Value.vStr title)⟩ : Cell) ::
        bandCells 2 3 combined.length none) 2 (data.length + 4)
      = truthyLen (some (Value.vStr title)) := by
    rw [colMaxLen_cons, if_pos ⟨rfl, by show (2 : Nat) ≤ data.length + 4; omega⟩,
      colMaxLen_bandCells_none]
    show max (truthyLen (some (Value.vStr title))) 0 = truthyLen (some (Value.vStr title))
    omega
  have hB : colMaxLen (bandCells (data.length + 4) 1 (combined.length + 2) none)
        2 (data.length + 4) = 0 := colMaxLen_bandCells_none
  unfold finalSheet
  rw [colMaxLen_append, colMaxLen_append, colMaxLen_append, hH, hS, hT, hB]
  unfold serialColContentMax
  omega

/-! ### The claims -/

/-- C1: in every run of the layout builder, the title cell's merge span runs
from the serial-number column (final column 2) through the last
UnifiedHeader column (final column `L + 2`), a width of `L + 1` data
columns, and excludes the left margin (column 1) and the right margin
(column `L + 3`), independent of the sources merged. -/
theorem c1_title_merge_span (files : List SourceTable) (combined : List String)
    (title : String) (_hs : "S. No." ∉ combined) (_hnd : combined.Nodup) :
    (process_excel files combined title).merges
        = [(2, 2, 2, combined.length + 2)]
      ∧ (combined.length + 2) - 2 + 1 = combined.length + 1
      ∧ 1 < 2 ∧ combined.length + 2 < combined.length + 3 :=
  ⟨(buildOutput_spec combined (pipelineRows files combined) title).2.2.2.1,
    by omega, by omega, by omega⟩

theorem c1_title_merge_span_witness :
    ("S. No." ∉ (["Name", "Cgpa"] : List String)
      ∧ (["Name", "Cgpa"] : List String).Nodup)
    ∧ (process_excel [⟨[some "Name", some "Cgpa"],
          [[some (Value.vStr "a"), none]]⟩] ["Name", "Cgpa"] "T").merges
        = [(2, 2, 2, 4)] :=
  ⟨⟨by decide, by decide⟩,
    (c1_title_merge_span [⟨[some "Name", some "Cgpa"],
        [[some (Value.vStr "a"), none]]⟩] ["Name", "Cgpa"] "T"
      (by decide) (by decide)).1⟩

/-- C2 (counterexample): the claim says the displayed name of every
UnifiedHeader column is the Text Normalizer applied to the column name,
but the builder writes the raw header names: for the source header
`"cgpa"`, the header cell (row 3, column 3) reads `"cgpa"`, while the
normalizer maps it to `"CGPA"`. -/
theorem c2_header_normalized_counterexample :
    getCell (process_excel [⟨[some "cgpa"], [[some (Value.vStr "x")]]⟩]
        ["cgpa"] "T").sheet 3 3 = some (Value.vStr "cgpa")
    ∧ transform_text "cgpa" = "CGPA"
    ∧ ("cgpa" : String) ≠ "CGPA" :=
  ⟨by decide, by decide, by decide⟩

/-- C2 (amended): in the output header row the serial-number label
`"S. No."` comes first, and every UnifiedHeader column displays its raw
column name, not the normalized one. -/
theorem c2_header_raw (files : List SourceTable) (combined : List String)
    (title : String) (_hs : "S. No." ∉ combined) (_hnd : combined.Nodup) :
    getCell (process_excel files combined title).sheet 3 2
        = some (Value.vStr "S. No.")
    ∧ ∀ j h, combined[j]? = some h →
        getCell (process_excel files combined title).sheet 3 (3 + j)
          = some (Value.vStr h) := by
  have hb := (buildOutput_spec combined (pipelineRows files combined) title).1
  constructor
  · show getCell (buildOutput combined (pipelineRows files combined) title).sheet
        3 2 = _
    rw [hb]
    have h := finalSheet_header_cell combined (pipelineRows files combined) title
      (j := 0) (by omega)
    rw [show (2 : Nat) + 0 = 2 by omega] at h
    rw [h, List.getD_cons_zero]
  · intro j h hjh
    have hj : j < combined.length := by
      by_contra hge
      rw [List.getElem?_eq_none (by omega)] at hjh
      exact Option.noConfusion hjh
    show getCell (buildOutput combined (pipelineRows files combined) title).sheet
        3 (3 + j) = _
    rw [hb]
    have hc := finalSheet_header_cell combined (pipelineRows files combined) title
      (j := 1 + j) (by omega)
    rw [show (2 : Nat) + (1 + j) = 3 + j by omega] at hc
    rw [hc, show (1 : Nat) + j = j + 1 by omega, List.getD_cons_succ,
      List.getD_eq_getElem?_getD, List.getElem?_map, hjh]
    rfl

theorem c2_header_raw_witness :
    getCell (process_excel [⟨[some "cgpa"], [[some (Value.vStr "x")]]⟩]
        ["cgpa"] "T").sheet 3 2 = some (Value.vStr "S. No.") :=
  (c2_header_raw [⟨[some "cgpa"], [[some (Value.vStr "x")]]⟩] ["cgpa"] "T"
    (by decide) (by decide)).1

/-- C3 (counterexample): the claim lists a fifth substitution entry
`"Roll No" -> "Roll. No."`; the code has no such entry, so `"roll no"`
title-cases to `"Roll No"` and is returned unchanged, not as
`"Roll. No."`. -/
theorem c3_substitution_counterexample :
    transform_text "roll no" = "Roll No"
    ∧ transform_text "roll no" ≠ "Roll. No." :=
  ⟨by decide, by decide⟩

/-- C3 (amended): normalization title-cases the string and then applies an
exact-match substitution table with exactly FOUR entries (there is no
`"Roll No" -> "Roll. No."` entry); any value matching no entry is returned
title-cased, and non-string values pass through unchanged. -/
theorem c3_substitution_amended :
    (∀ h v, (∀ s, v ≠ some (Value.vStr s)) → transformCell h v = v)
    ∧ (∀ s, pyTitle s ∉ (["Bachelors Of Commerce - Commerce",
          "Bachelors Of Arts - Humanities", "Cgpa", "Na"] : List String) →
        transform_text s = pyTitle s)
    ∧ transform_text "bachelors of commerce - commerce" = "B.Com. (Hons.)"
    ∧ transform_text "bachelors of arts - humanities" = "B.A. Hons. Economics"
    ∧ transform_text "CGPA" = "CGPA"
    ∧ transform_text "na" = "NA" := by
  refine ⟨?_, ?_, by decide, by decide, by decide, by decide⟩
  · intro h v hv
    cases v with
    | none => rfl
    | some w =>
      cases w with
      | vStr s => exact absurd rfl (hv s)
      | vInt n => rfl
      | vBool b => rfl
  · intro s hs
    simp only [List.mem_cons, List.not_mem_nil, or_false, not_or] at hs
    obtain ⟨h1, h2, h3, h4⟩ := hs
    simp only [transform_text]
    rw [if_neg h1, if_neg h2, if_neg h3, if_neg h4]

theorem c3_substitution_amended_witness :
    transformCell "X" (some (Value.vInt 7)) = some (Value.vInt 7)
    ∧ transform_text "hello world" = pyTitle "hello world" :=
  ⟨c3_substitution_amended.1 "X" (some (Value.vInt 7))
      (fun s h => by simp at h),
    c3_substitution_amended.2.1 "hello world" (by decide)⟩

/-- C4: in the transformation pass, a column whose stripped, case-folded
name is a roll-number alias gets its string cell values upper-cased as a
post-step after the substitution table (`pyUpper` applied to the
`transform_text` output), and every merged row goes through the pass. -/
theorem c4_roll_upper (combined : List String) (row : MergedRow)
    (rows : List MergedRow) (j : Nat) (h : String) (s : String)
    (hh : combined[j]? = some h) (halias : isRollAlias h = true)
    (hv : row[j]? = some (some (Value.vStr s))) :
    (transformRow combined row)[j]?
        = some (some (Value.vStr (pyUpper (transform_text s))))
    ∧ (row ∈ rows → transformRow combined row ∈ transformAll combined rows) := by
  constructor
  · rw [transformRow, List.getElem?_zipWith, hh, hv]
    simp [transformCell, halias]
  · intro hm
    exact List.mem_map_of_mem _ hm

theorem c4_roll_upper_witness :
    (transformRow ["Roll No"] [some (Value.vStr "xy12z")])[0]?
      = some (some (Value.vStr "XY12Z")) := by
  have h := (c4_roll_upper ["Roll No"] [some (Value.vStr "xy12z")] [] 0
    "Roll No" "xy12z" (by decide) (by decide) (by decide)).1
  rw [h]
  decide

/-- C10: the sort key coerces every falsy cell value (`None`, `""`, `0`,
`False`) to the empty string, so a row whose name cell holds the integer 0
sorts with the empty key, not as the string `"0"`: in a concrete sort it
comes before a row named `"!"`, which the key `"0"` would not. -/
theorem c10_falsy_key :
    (∀ v, pyFalsy v = true → sortKey v = "")
    ∧ sortKey (some (Value.vInt 0)) = ""
    ∧ sortKey (some (Value.vBool false)) = ""
    ∧ sortKey (some (Value.vStr "")) = ""
    ∧ sortKey none = ""
    ∧ sortKey (some (Value.vInt 0)) ≠ pyLower (pyStr (Value.vInt 0))
    ∧ orderRows ["Name"] [[some (Value.vStr "!")], [some (Value.vInt 0)]]
        = [[some (Value.vInt 0)], [some (Value.vStr "!")]] := by
  refine ⟨?_, by decide, by decide, by decide, by decide, by decide, by decide⟩
  intro v hv
  simp [sortKey, hv]

theorem c10_falsy_key_witness :
    pyFalsy (some (Value.vBool false)) = true
    ∧ sortKey (some (Value.vBool false)) = "" :=
  ⟨by decide, c10_falsy_key.1 (some (Value.vBool false)) (by decide)⟩

/-- C5: when a column whose stripped, case-folded name is `"name"` exists
(at position `i`), the ordering pass yields a permutation of the rows that
is sorted by the case-insensitive key (falsy values keyed as `""`), and is
stable: for every key value, the rows carrying that key keep their pre-sort
relative order; when no such column exists the merge order is returned
untouched, with no error. -/
theorem c5_name_sort (combined : List String) (rows : List MergedRow) :
    (∀ i, nameIdx combined = some i →
      List.Sorted (rowLe i) (orderRows combined rows)
      ∧ List.Perm (orderRows combined rows) rows
      ∧ ∀ k, (orderRows combined rows).filter
            (fun x => sortKey (x.getD i none) == k)
          = rows.filter (fun x => sortKey (x.getD i none) == k))
    ∧ (nameIdx combined = none → orderRows combined rows = rows) := by
  constructor
  · intro i hi
    rw [orderRows, hi]
    exact ⟨List.sorted_insertionSort (rowLe i) rows,
      List.perm_insertionSort (rowLe i) rows,
      fun k => filter_insertionSort i k rows⟩
  · intro hn
    rw [orderRows, hn]

theorem c5_name_sort_witness :
    nameIdx ["Name"] = some 0
    ∧ List.Sorted (rowLe 0) (orderRows ["Name"]
        [[some (Value.vStr "beta")], [some (Value.vStr "Alpha")]]) :=
  ⟨by decide,
    ((c5_name_sort ["Name"]
        [[some (Value.vStr "beta")], [some (Value.vStr "Alpha")]]).1
      0 (by decide)).1⟩

/-- C6: in the finished sheet the serial numbers are exactly `1..N` in
final row order — the data row at position `i` (sheet row `4 + i`) carries
serial `i + 1` — and they are attached to the rows of the ORDERED dataset
(the serials are written against the final positions, after any sort). -/
theorem c6_serials (files : List SourceTable) (combined : List String)
    (title : String) (_hs : "S. No." ∉ combined) (_hnd : combined.Nodup) :
    (∀ i, i < (pipelineRows files combined).length →
      getCell (process_excel files combined title).sheet (4 + i) 2
        = some (Value.vInt (1 + (i : Int))))
    ∧ (∀ i j, i < (pipelineRows files combined).length → j < combined.length →
      getCell (process_excel files combined title).sheet (4 + i) (3 + j)
        = ((pipelineRows files combined).getD i []).getD j none) := by
  have hb := (buildOutput_spec combined (pipelineRows files combined) title).1
  constructor
  · intro i hi
    show getCell (buildOutput combined (pipelineRows files combined) title).sheet
        (4 + i) 2 = _
    rw [hb]
    exact finalSheet_serial_cell _ _ _ hi
  · intro i j hi hj
    show getCell (buildOutput combined (pipelineRows files combined) title).sheet
        (4 + i) (3 + j) = _
    rw [hb]
    exact finalSheet_data_cell _ _ _ hi hj

theorem c6_serials_witness :
    getCell (process_excel [⟨[some "Name"],
        [[some (Value.vStr "b")], [some (Value.vStr "a")]]⟩] ["Name"] "T").sheet
      5 2 = some (Value.vInt 2) := by
  have h := (c6_serials [⟨[some "Name"],
      [[some (Value.vStr "b")], [some (Value.vStr "a")]]⟩] ["Name"] "T"
    (by decide) (by decide)).1 1 (by decide)
  rw [show (5 : Nat) = 4 + 1 by omega, h]
  norm_num

/-- C7: the merge yields one MergedRow per source data row — the output
length is the sum of the sources' row counts, sources concatenated in
order — every merged row has exactly the UnifiedHeader's columns, and a
column absent from a row's source (no entry in its header map) reads
`None` in that row, never a value from another source. -/
theorem c7_merge (files : List SourceTable) (combined : List String) :
    (mergeAll files combined).length = (files.map (fun f => f.rows.length)).sum
    ∧ (∀ f fs, mergeAll (f :: fs) combined
        = f.rows.map (rowToMerged f.headerRow combined) ++ mergeAll fs combined)
    ∧ (∀ f ∈ files, ∀ row ∈ f.rows,
        (rowToMerged f.headerRow combined row).length = combined.length)
    ∧ (∀ f ∈ files, ∀ row ∈ f.rows, ∀ (j : Nat) (h : String),
        combined[j]? = some h →
        fileHeaderCol f.headerRow h = none →
        (rowToMerged f.headerRow combined row)[j]? = some none) := by
  refine ⟨mergeAll_length files combined, ?_, ?_, ?_⟩
  · intro f fs
    simp [mergeAll]
  · intro f _ row _
    exact rowToMerged_length _ _ _
  · intro f _ row _ j h hj hnone
    rw [rowToMerged, List.getElem?_map, hj]
    simp [hnone]

theorem c7_merge_witness :
    (mergeAll [⟨[some "A"], [[some (Value.vInt 1)]]⟩] ["A", "B"]).length = 1
    ∧ (rowToMerged [some "A"] ["A", "B"] [some (Value.vInt 1)])[1]? = some none := by
  constructor
  · exact (c7_merge [⟨[some "A"], [[some (Value.vInt 1)]]⟩] ["A", "B"]).1
  · exact (c7_merge [⟨[some "A"], [[some (Value.vInt 1)]]⟩] ["A", "B"]).2.2.2
      ⟨[some "A"], [[some (Value.vInt 1)]]⟩ (List.mem_singleton.2 rfl)
      [some (Value.vInt 1)] (List.mem_singleton.2 rfl)
      1 "B" (by decide) (by decide)

theorem addHeader_eq_filter (l : List String) (acc : List String) :
    l.foldl addHeader acc
      = (l.filter (fun h => !isIdentity h)).foldl insHeader acc := by
  induction l generalizing acc with
  | nil => rfl
  | cons h t ih =>
    simp only [List.foldl_cons, List.filter_cons]
    by_cases hid : isIdentity h
    · have h1 : addHeader acc h = acc := by rw [addHeader, if_pos hid]
      have h2 : (!isIdentity h) = false := by rw [hid]; rfl
      rw [h1, h2]
      simp only [Bool.false_eq_true, if_false]
      exact ih acc
    · have hid' : isIdentity h = false := by
        rw [Bool.eq_false_iff]
        exact hid
      have h1 : addHeader acc h = insHeader acc h := by
        rw [addHeader, if_neg hid]
        rfl
      have h2 : (!isIdentity h) = true := by rw [hid']; rfl
      rw [h1, h2, if_pos rfl, List.foldl_cons]
      exact ih (insHeader acc h)

theorem unifyHeaders_eq_flat (files : List (List (Option String))) :
    unifyHeaders files
      = (files.flatMap (fun hs => hs.filterMap id)).foldl addHeader [] := by
  suffices hgen : ∀ acc, files.foldl
      (fun acc hs => (hs.filterMap id).foldl addHeader acc) acc
      = (files.flatMap (fun hs => hs.filterMap id)).foldl addHeader acc by
    exact hgen []
  induction files with
  | nil =>
    intro acc
    rfl
  | cons f fs ih =>
    intro acc
    simp only [List.foldl_cons, List.flatMap_cons, List.foldl_append]
    exact ih _

theorem insHeader_nodup {acc : List String} {h : String} (hnd : acc.Nodup) :
    (insHeader acc h).Nodup := by
  unfold insHeader
  by_cases hmem : h ∈ acc
  · rw [if_pos hmem]
    exact hnd
  · rw [if_neg hmem]
    rw [List.nodup_append]
    refine ⟨hnd, List.nodup_singleton h, ?_⟩
    intro a ha hb
    rw [List.mem_singleton] at hb
    subst hb
    exact hmem ha

theorem foldl_insHeader_nodup (l : List String) (acc : List String)
    (hnd : acc.Nodup) : (l.foldl insHeader acc).Nodup := by
  induction l generalizing acc with
  | nil => exact hnd
  | cons a t ih => exact ih _ (insHeader_nodup hnd)

theorem mem_foldl_insHeader (l : List String) (acc : List String) (h : String) :
    h ∈ l.foldl insHeader acc ↔ h ∈ acc ∨ h ∈ l := by
  induction l generalizing acc with
  | nil => simp
  | cons a t ih =>
    rw [List.foldl_cons, ih]
    unfold insHeader
    by_cases hmem : a ∈ acc
    · rw [if_pos hmem]
      simp only [List.mem_cons]
      constructor
      · rintro (hh | hh)
        · exact Or.inl hh
        · exact Or.inr (Or.inr hh)
      · rintro (hh | rfl | hh)
        · exact Or.inl hh
        · exact Or.inl hmem
        · exact Or.inr hh
    · rw [if_neg hmem]
      simp only [List.mem_append, List.mem_singleton, List.mem_cons,
        List.not_mem_nil, or_false]
      constructor
      · rintro ((hh | rfl) | hh)
        · exact Or.inl hh
        · exact Or.inr (Or.inl rfl)
        · exact Or.inr (Or.inr hh)
      · rintro (hh | rfl | hh)
        · exact Or.inl (Or.inl hh)
        · exact Or.inl (Or.inr rfl)
        · exact Or.inr hh

/-- C8: header unification drops every header cell whose stripped,
case-folded name is an identity alias, de-duplicates the rest by raw name
equality keeping first occurrences (it equals a first-seen de-duplication
of the filtered concatenation of all header rows), and the result has no
duplicates; a header belongs to the result exactly when it is non-identity
and occurs in some source's header row. -/
theorem c8_unify_headers (files : List (List (Option String))) :
    unifyHeaders files
        = dedupFirstSeen
            ((files.flatMap (fun hs => hs.filterMap id)).filter
              (fun h => !isIdentity h))
    ∧ (unifyHeaders files).Nodup
    ∧ ∀ h, h ∈ unifyHeaders files
        ↔ (isIdentity h = false ∧ ∃ hs ∈ files, some h ∈ hs) := by
  have he : unifyHeaders files
      = ((files.flatMap (fun hs => hs.filterMap id)).filter
          (fun h => !isIdentity h)).foldl insHeader [] := by
    rw [unifyHeaders_eq_flat, addHeader_eq_filter]
  refine ⟨he, ?_, ?_⟩
  · rw [he]
    exact foldl_insHeader_nodup _ _ List.nodup_nil
  · intro h
    rw [he, mem_foldl_insHeader]
    simp only [List.not_mem_nil, false_or, List.mem_filter, List.mem_flatMap,
      List.mem_filterMap, id_eq, Bool.not_eq_true']
    constructor
    · rintro ⟨⟨hs, hmem, o, ho, rfl⟩, hid⟩
      exact ⟨hid, hs, hmem, ho⟩
    · rintro ⟨hid, hs, hmem, ho⟩
      exact ⟨⟨hs, hmem, some h, ho, rfl⟩, hid⟩

/-- C9 (counterexample): the claim gives the rightmost data column extra
padding beyond the standard increment, but the auto-fit loop applies the
same `+ 2` to every data column: with headers `"Ab"` and `"Cd"` (both
rendered length 2) and no data rows, the rightmost data column (4) and the
other data column (3) both end at width 4 = 2 + 2 — identical increments,
no extra padding. -/
theorem c9_autofit_counterexample :
    getWidth (process_excel [⟨[some "Ab", some "Cd"], []⟩]
        ["Ab", "Cd"] "T").widths 4 = 4
    ∧ getWidth (process_excel [⟨[some "Ab", some "Cd"], []⟩]
        ["Ab", "Cd"] "T").widths 3 = 4
    ∧ truthyLen (some (Value.vStr "Cd")) = 2
    ∧ truthyLen (some (Value.vStr "Ab")) = 2 :=
  ⟨by decide, by decide, by decide, by decide⟩

/-- C9 (amended): after the margin and title insertion pass, every data
column's final width is the maximum rendered length over the truthy cells
in that column's final position plus the fixed padding 2, with the SAME
increment for every data column including the rightmost: a UnifiedHeader
column counts its raw header and its (post-transformation) data cells,
skipping falsy values; the serial column counts the `"S. No."` label, the
serial numbers, and also the title cell, which lives in that column. -/
theorem c9_autofit_amended (files : List SourceTable) (combined : List String)
    (title : String) (_hs : "S. No." ∉ combined) (_hnd : combined.Nodup) :
    (∀ (j : Nat) (h : String), combined[j]? = some h →
      getWidth (process_excel files combined title).widths (3 + j)
        = colContentMax h
            ((pipelineRows files combined).map (fun r => r.getD j none)) + 2)
    ∧ getWidth (process_excel files combined title).widths 2
        = serialColContentMax title (pipelineRows files combined).length + 2 := by
  have hw := (buildOutput_spec combined (pipelineRows files combined) title).2.2.2.2
  constructor
  · intro j h hjh
    have hj : j < combined.length := by
      by_contra hge
      rw [List.getElem?_eq_none (by omega)] at hjh
      exact Option.noConfusion hjh
    have hgw := hw (3 + j) (by omega) (by omega)
    show getWidth (buildOutput combined
        (pipelineRows files combined) title).widths (3 + j) = _
    rw [hgw, colMaxLen_finalSheet_data _ _ _ hj]
    have hge : combined.getD j "" = h := by
      rw [List.getD_eq_getElem?_getD, hjh]
      rfl
    rw [hge]
  · have hgw := hw 2 (by omega) (by omega)
    show getWidth (buildOutput combined
        (pipelineRows files combined) title).widths 2 = _
    rw [hgw, colMaxLen_finalSheet_serial]

theorem c9_autofit_amended_witness :
    getWidth (process_excel [⟨[some "Ab"], [[some (Value.vStr "xyz")]]⟩]
        ["Ab"] "T").widths (3 + 0) = 5 := by
  have h := (c9_autofit_amended [⟨[some "Ab"], [[some (Value.vStr "xyz")]]⟩]
      ["Ab"] "T" (by decide) (by decide)).1 0 "Ab" (by decide)
  rw [h]
  decide
